import Mathlib

set_option linter.unusedVariables false
set_option linter.unnecessarySeqFocus false

/-!
Verification of the PhotoArchive core (FileDb.py) against its specification.

The Python source is shallowly embedded: strings are modelled as `List Char`
(`Str`), `pathlib` relative paths as lists of name components (`WinPath`,
Windows path flavour: both '/' and '\x5c' act as separators, '.' components
and empty components are dropped on construction; drive/root handling is not
modelled because the archive only ever deals in relative manifest paths),
exceptions as `Except`, and file-system effects of the index builder as
explicit state passing over an association-list file system.
-/

instance {ε α : Type} [DecidableEq ε] [DecidableEq α] : DecidableEq (Except ε α)
  | .error e1, .error e2 =>
    if h : e1 = e2 then isTrue (by rw [h]) else isFalse (by intro he; injection he; contradiction)
  | .error _, .ok _ => isFalse (by intro he; injection he)
  | .ok _, .error _ => isFalse (by intro he; injection he)
  | .ok a1, .ok a2 =>
    if h : a1 = a2 then isTrue (by rw [h]) else isFalse (by intro he; injection he; contradiction)

abbrev Str := List Char

def lowerStr (s : Str) : Str := s.map Char.toLower

/-- Relative path, Windows path flavour of `pathlib`: just the tuple of
name components (`PurePath.parts`). -/
abbrev WinPath := List Str

/-- Character treated as a path separator by `pathlib.PureWindowsPath`. -/
def isSepChar (c : Char) : Bool := c == '/' || c == '\x5c'

/-- Raw split of a character string at separator characters (keeping empty
pieces, as a plain split does). -/
def splitSep : Str → List Str
  | [] => [[]]
  | c :: rest =>
    if isSepChar c then [] :: splitSep rest
    else
      match splitSep rest with
      | [] => [[c]]
      | comp :: comps => (c :: comp) :: comps

/-- Component filter used by `pathlib` path parsing: empty pieces (from
repeated separators) and '.' pieces are dropped. -/
def keepComponent (comp : Str) : Bool := comp ≠ [] && comp ≠ ['.']

/-- Model of `pathlib.Path(s)` for a relative path string: split at
separators and drop empty and '.' components. -/
def parsePath (s : Str) : WinPath := (splitSep s).filter keepComponent

/-- Model of `PurePath.as_posix()` for relative paths: components joined
with '/', the empty path printed as '.'. -/
def posixPath : WinPath → Str
  | [] => ['.']
  | [comp] => comp
  | comp :: rest => comp ++ '/' :: posixPath rest

/-- Model of Python `str.rstrip('\r\n')`: remove any trailing CR and LF
characters (`ChecksumFileReader.__next__`). -/
def stripCRLF (s : Str) : Str :=
  (s.reverse.dropWhile (fun c => c == '\r' || c == '\n')).reverse

/-- Model of Python `str.partition(' ')` from `ChecksumFileReader.__next__`:
split at the first space into (before, separator, after); the separator part
is empty when no space occurs. -/
def partitionSp : Str → Str × Str × Str
  | [] => ([], [], [])
  | c :: rest =>
    if c = ' ' then ([], [' '], rest)
    else
      let (a, s, b) := partitionSp rest
      (c :: a, s, b)

/-- Decoding of one non-empty, already CR/LF-stripped manifest line,
mirroring the body of `ChecksumFileReader.__next__`: partition at the first
space, strip one leading '*' or ' ' marker from the name part, fail when the
separator or the name is missing, otherwise return the parsed path and the
checksum text. -/
def parseLine (l : Str) : Except String (WinPath × Str) :=
  let (c, s, n) := partitionSp l
  let n2 :=
    match n with
    | '*' :: t => t
    | ' ' :: t => t
    | _ => n
  if s = [] ∨ n2 = [] then .error ("Invalid checksum line")
  else .ok (parsePath n2, c)

/-- Reading a whole manifest, line by line, as `ChecksumFileReader`
iteration does: CR/LF-strip each line, skip lines that are then empty, stop
with an error on the first malformed line. -/
def readLines : List Str → Except String (List (WinPath × Str))
  | [] => .ok []
  | l :: rest =>
    let l' := stripCRLF l
    if l' = [] then readLines rest
    else
      match parseLine l' with
      | .error e => .error e
      | .ok pc =>
        match readLines rest with
        | .error e => .error e
        | .ok ps => .ok (pc :: ps)

/-- One line as produced by `ChecksumFileWriter.write`:
`print( checksum, ' *./', filePath.as_posix(), sep = '' )`. -/
def encodeLine (filePath : WinPath) (checksum : Str) : Str :=
  checksum ++ (' ' :: '*' :: '.' :: '/' :: posixPath filePath)

/-- The manifest file produced by writing each pair in order with
`ChecksumFileWriter.write` (one line per call). -/
def writeLines (pairs : List (WinPath × Str)) : List Str :=
  pairs.map (fun pc => encodeLine pc.1 pc.2)

/-- Checksum text that survives the line format: no space (the field
separator) and no line-break characters. -/
def plainChecksumText (c : Str) : Prop := ' ' ∉ c ∧ '\r' ∉ c ∧ '\n' ∉ c

/-- Path component that a real (Windows) file can have and that survives the
line format: non-empty, not the '.' marker, free of separators and line
breaks. -/
def goodComponent (comp : Str) : Prop :=
  comp ≠ [] ∧ comp ≠ ['.'] ∧ ∀ ch ∈ comp, isSepChar ch = false ∧ ch ≠ '\r' ∧ ch ≠ '\n'

def goodPath (p : WinPath) : Prop := ∀ comp ∈ p, goodComponent comp

instance : DecidablePred plainChecksumText := fun c => by
  unfold plainChecksumText; infer_instance

instance : DecidablePred goodComponent := fun c => by
  unfold goodComponent; infer_instance

instance : DecidablePred goodPath := fun p => by
  unfold goodPath; infer_instance

theorem dropWhile_eq_self_of_not {p : Char → Bool} :
    ∀ l : Str, (∀ c ∈ l, p c = false) → l.dropWhile p = l := by
  intro l h
  cases l with
  | nil => rfl
  | cons c rest =>
    rw [List.dropWhile_cons]
    simp [h c (by simp)]

theorem stripCRLF_eq_self {s : Str} (h : ∀ c ∈ s, c ≠ '\r' ∧ c ≠ '\n') :
    stripCRLF s = s := by
  unfold stripCRLF
  rw [dropWhile_eq_self_of_not]
  · exact s.reverse_reverse
  · intro c hc
    rcases h c (List.mem_reverse.mp hc) with ⟨h1, h2⟩
    simp [h1, h2]

theorem partitionSp_append {c : Str} (hc : ' ' ∉ c) (n : Str) :
    partitionSp (c ++ ' ' :: n) = (c, [' '], n) := by
  induction c with
  | nil => simp [partitionSp]
  | cons x xs ih =>
    have hx : x ≠ ' ' := by intro h; exact hc (h ▸ List.mem_cons_self x xs)
    have hxs : ' ' ∉ xs := fun h => hc (List.mem_cons_of_mem _ h)
    simp only [List.cons_append, partitionSp, if_neg hx, List.append_eq, ih hxs]

theorem splitSep_sepFree {comp : Str} (h : ∀ ch ∈ comp, isSepChar ch = false) :
    splitSep comp = [comp] := by
  induction comp with
  | nil => rfl
  | cons x xs ih =>
    have hx : isSepChar x = false := h x (by simp)
    have hxs : ∀ ch ∈ xs, isSepChar ch = false := fun ch hc => h ch (List.mem_cons_of_mem _ hc)
    simp only [splitSep, hx, Bool.false_eq_true, if_false, ih hxs]

theorem splitSep_append_sep {comp : Str} (h : ∀ ch ∈ comp, isSepChar ch = false)
    (rest : Str) : splitSep (comp ++ '/' :: rest) = comp :: splitSep rest := by
  induction comp with
  | nil => simp [splitSep, isSepChar]
  | cons x xs ih =>
    have hx : isSepChar x = false := h x (by simp)
    have hxs : ∀ ch ∈ xs, isSepChar ch = false := fun ch hc => h ch (List.mem_cons_of_mem _ hc)
    simp only [List.cons_append, splitSep, hx, Bool.false_eq_true, if_false, ih hxs]
    cases hs : splitSep (xs ++ '/' :: rest) with
    | nil => rw [ih hxs] at hs; exact absurd hs (by simp)
    | cons a as => rw [ih hxs] at hs; cases hs; rfl

theorem keepComponent_true {comp : Str} (h1 : comp ≠ []) (h2 : comp ≠ ['.']) :
    keepComponent comp = true := by
  simp [keepComponent, h1, h2]

theorem parsePath_posixPath {p : WinPath} (hp : goodPath p) :
    parsePath ('.' :: '/' :: posixPath p) = p := by
  have hsplit : splitSep ('.' :: '/' :: posixPath p) = ['.'] :: splitSep (posixPath p) := by
    simp [splitSep, isSepChar]
  have core : ∀ q : WinPath, goodPath q → q ≠ [] →
      splitSep (posixPath q) = q := by
    intro q
    induction q with
    | nil => intro _ h; exact absurd rfl h
    | cons comp rest ih =>
      intro hq _
      have hcomp : goodComponent comp := hq comp (by simp)
      have hrest : goodPath rest := fun c hc => hq c (List.mem_cons_of_mem _ hc)
      have hsepfree : ∀ ch ∈ comp, isSepChar ch = false :=
        fun ch hc => (hcomp.2.2 ch hc).1
      cases rest with
      | nil => simpa [posixPath] using splitSep_sepFree hsepfree
      | cons c2 r2 =>
        have : posixPath (comp :: c2 :: r2) = comp ++ '/' :: posixPath (c2 :: r2) := rfl
        rw [this, splitSep_append_sep hsepfree, ih hrest (by simp)]
  unfold parsePath
  rw [hsplit]
  cases hp0 : decide (p = []) with
  | true =>
    have : p = [] := of_decide_eq_true hp0
    subst this
    simp [posixPath, splitSep, keepComponent, List.filter]
  | false =>
    have hne : p ≠ [] := of_decide_eq_false hp0
    rw [core p hp hne]
    have hfilter : ∀ q : WinPath, goodPath q → q.filter keepComponent = q := by
      intro q hq
      apply List.filter_eq_self.mpr
      intro comp hc
      exact keepComponent_true (hq comp hc).1 (hq comp hc).2.1
    rw [List.filter_cons]
    simp only [keepComponent, List.filter]
    have : keepComponent ['.'] = false := by simp [keepComponent]
    simp [this, hfilter p hp]

theorem parseLine_encodeLine {p : WinPath} {c : Str}
    (hc : plainChecksumText c) (hp : goodPath p) :
    parseLine (encodeLine p c) = .ok (p, c) := by
  unfold encodeLine parseLine
  rw [show c ++ (' ' :: '*' :: '.' :: '/' :: posixPath p)
        = c ++ ' ' :: ('*' :: '.' :: '/' :: posixPath p) from rfl]
  rw [partitionSp_append hc.1]
  simp only []
  have hne : ('.' :: '/' :: posixPath p : Str) ≠ [] := by simp
  rw [if_neg (by push_neg; exact ⟨by simp, hne⟩)]
  rw [parsePath_posixPath hp]

theorem encodeLine_noCRLF {p : WinPath} {c : Str}
    (hc : plainChecksumText c) (hp : goodPath p) :
    ∀ ch ∈ encodeLine p c, ch ≠ '\r' ∧ ch ≠ '\n' := by
  intro ch hch
  unfold encodeLine at hch
  rcases List.mem_append.mp hch with h | h
  · constructor
    · intro he; exact hc.2.1 (he ▸ h)
    · intro he; exact hc.2.2 (he ▸ h)
  · simp only [List.mem_cons] at h
    rcases h with rfl | rfl | rfl | rfl | h
    · exact ⟨by decide, by decide⟩
    · exact ⟨by decide, by decide⟩
    · exact ⟨by decide, by decide⟩
    · exact ⟨by decide, by decide⟩
    · -- ch comes from posixPath p
      have : ∀ q : WinPath, goodPath q → ∀ ch ∈ posixPath q, ch ≠ '\r' ∧ ch ≠ '\n' := by
        intro q
        induction q with
        | nil => intro _ ch hch; simp [posixPath] at hch; subst hch; exact ⟨by decide, by decide⟩
        | cons comp rest ih =>
          intro hq ch hch
          have hcomp : goodComponent comp := hq comp (by simp)
          have hrest : goodPath rest := fun x hx => hq x (List.mem_cons_of_mem _ hx)
          cases rest with
          | nil =>
            simp only [posixPath] at hch
            exact ⟨(hcomp.2.2 ch hch).2.1, (hcomp.2.2 ch hch).2.2⟩
          | cons c2 r2 =>
            have : posixPath (comp :: c2 :: r2) = comp ++ '/' :: posixPath (c2 :: r2) := rfl
            rw [this] at hch
            rcases List.mem_append.mp hch with h2 | h2
            · exact ⟨(hcomp.2.2 ch h2).2.1, (hcomp.2.2 ch h2).2.2⟩
            · rcases List.mem_cons.mp h2 with rfl | h3
              · exact ⟨by decide, by decide⟩
              · exact ih hrest ch h3
      exact this p hp ch h

theorem encodeLine_ne_nil (p : WinPath) (c : Str) : encodeLine p c ≠ [] := by
  unfold encodeLine
  intro h
  have := congrArg List.length h
  simp at this

theorem readLines_writeLines {pairs : List (WinPath × Str)}
    (h : ∀ pc ∈ pairs, plainChecksumText pc.2 ∧ goodPath pc.1) :
    readLines (writeLines pairs) = .ok pairs := by
  induction pairs with
  | nil => rfl
  | cons pc rest ih =>
    have hpc := h pc (by simp)
    have hrest : ∀ x ∈ rest, plainChecksumText x.2 ∧ goodPath x.1 :=
      fun x hx => h x (List.mem_cons_of_mem _ hx)
    show readLines (encodeLine pc.1 pc.2 :: writeLines rest) = .ok (pc :: rest)
    unfold readLines
    rw [stripCRLF_eq_self (encodeLine_noCRLF hpc.1 hpc.2)]
    rw [if_neg (encodeLine_ne_nil pc.1 pc.2)]
    rw [parseLine_encodeLine hpc.1 hpc.2, ih hrest]

theorem splitSep_map_backslash (s : Str) :
    splitSep (s.map (fun ch => if ch = '/' then '\x5c' else ch)) = splitSep s := by
  induction s with
  | nil => rfl
  | cons c rest ih =>
    by_cases hsep : isSepChar c = true
    · have h2 : isSepChar (if c = '/' then '\x5c' else c) = true := by
        by_cases hc : c = '/'
        · simp [hc, isSepChar]
        · simp [hc, hsep]
      simp only [List.map_cons, splitSep, hsep, if_true, h2, ih]
    · have hc : c ≠ '/' := by
        intro h; exact hsep (by simp [h, isSepChar])
      simp only [List.map_cons, if_neg hc, splitSep,
        hsep, Bool.false_eq_true, if_false, ih]

/-- C6 (amended): writing a set of (relative path, checksum) pairs with the
manifest writer and reading the file back yields the same list of pairs,
provided every checksum text is free of spaces and line breaks and every
path component is a real file-name component (non-empty, not '.', free of
separators and line breaks); and reading a path is insensitive both to
forward versus back slashes and to a leading './' prefix.  (The unrestricted
claim is refuted by `C6_roundtrip_counterexample`: a checksum containing a
space corrupts the line format.) -/
theorem C6_manifest_roundtrip :
    (∀ pairs : List (WinPath × Str),
        (∀ pc ∈ pairs, plainChecksumText pc.2 ∧ goodPath pc.1) →
        readLines (writeLines pairs) = .ok pairs)
  ∧ (∀ s : Str,
        parsePath (s.map (fun ch => if ch = '/' then '\x5c' else ch)) = parsePath s)
  ∧ (∀ s : Str, (∀ c, s.head? = some c → isSepChar c = false) →
        parsePath ('.' :: '/' :: s) = parsePath s) := by
  refine ⟨fun pairs h => readLines_writeLines h, fun s => ?_, fun s _ => ?_⟩
  · unfold parsePath
    rw [splitSep_map_backslash]
  · unfold parsePath
    have : splitSep ('.' :: '/' :: s) = ['.'] :: splitSep s := by
      simp [splitSep, isSepChar]
    rw [this, List.filter_cons]
    simp [keepComponent]

/-- C6 witness: the round trip and the slash insensitivity evaluated on a
concrete manifest. -/
theorem C6_manifest_roundtrip_witness :
    readLines (writeLines [([['a']], ['f', 'f'])]) = .ok [([['a']], ['f', 'f'])] ∧
    parsePath ((['.', '/', 'a', '/', 'b'] : Str).map
        (fun ch => if ch = '/' then '\x5c' else ch)) =
      parsePath ['.', '/', 'a', '/', 'b'] ∧
    parsePath ('.' :: '/' :: ['a', '/', 'b']) = parsePath ['a', '/', 'b'] :=
  ⟨C6_manifest_roundtrip.1 [([['a']], ['f', 'f'])] (by decide),
   C6_manifest_roundtrip.2.1 ['.', '/', 'a', '/', 'b'],
   C6_manifest_roundtrip.2.2 ['a', '/', 'b'] (by decide)⟩

/-- C6 counterexample: for the pair (path 'p', checksum text 'a b') — a
checksum containing a space — writing and re-reading does not give back the
original set of pairs, refuting the claim as stated for arbitrary checksum
strings: the reader partitions the line at the first space. -/
theorem C6_roundtrip_counterexample :
    readLines (writeLines [([['p']], ['a', ' ', 'b'])]) =
      .ok [([['b', ' ', '*', '.'], ['p']], ['a'])] ∧
    ([(['b', ' ', '*', '.'] : Str), ['p']], (['a'] : Str)) ≠
      (([['p']] : WinPath), (['a', ' ', 'b'] : Str)) := by
  constructor
  · rfl
  · decide

/-! ## Content index (FileDb) -/

/-- Module constant `defaultChecksumAlgorithm = 'sha256'`. -/
def defaultChecksumAlgorithm : Str := "sha256".toList

def sha1Algorithm : Str := "sha1".toList

/-- `detectChecksumAlgorithm` from FileDb.py: pure function of the string
length (40 chars of hex = sha1, 64 = sha256, anything else = None). -/
def detectChecksumAlgorithm (checksum : Str) : Option Str :=
  if checksum.length = 40 then some sha1Algorithm
  else if checksum.length = 64 then some defaultChecksumAlgorithm
  else none

/-- Last name component, `PurePath.name` (the empty path has name ''). -/
def pathName (p : WinPath) : Str := p.getLast?.getD []

/-- `FileInfo`: one record of the content index.  The `duplicate` field is
the singly linked chain of records sharing one checksum; the inductive type
matches the Python object graph (append-at-tail, never cyclic). -/
inductive FileInfo where
  | mk (filePath : WinPath) (checksum : Str) (id : Nat) (duplicate : Option FileInfo)

def FileInfo.decEq : (a b : FileInfo) → Decidable (a = b)
  | .mk f1 c1 i1 none, .mk f2 c2 i2 none =>
    if h : f1 = f2 ∧ c1 = c2 ∧ i1 = i2 then
      isTrue (by rw [h.1, h.2.1, h.2.2])
    else
      isFalse (by intro he; injection he with h1 h2 h3 h4; exact h ⟨h1, h2, h3⟩)
  | .mk f1 c1 i1 none, .mk f2 c2 i2 (some d2) =>
    isFalse (by intro he; injection he with h1 h2 h3 h4; exact Option.noConfusion h4)
  | .mk f1 c1 i1 (some d1), .mk f2 c2 i2 none =>
    isFalse (by intro he; injection he with h1 h2 h3 h4; exact Option.noConfusion h4)
  | .mk f1 c1 i1 (some d1), .mk f2 c2 i2 (some d2) =>
    match FileInfo.decEq d1 d2 with
    | isTrue hd =>
      if h : f1 = f2 ∧ c1 = c2 ∧ i1 = i2 then
        isTrue (by rw [h.1, h.2.1, h.2.2, hd])
      else
        isFalse (by intro he; injection he with h1 h2 h3 h4; exact h ⟨h1, h2, h3⟩)
    | isFalse hd =>
      isFalse (by intro he; injection he with h1 h2 h3 h4; exact hd (Option.some.inj h4))

instance : DecidableEq FileInfo := FileInfo.decEq

def FileInfo.filePath : FileInfo → WinPath
  | .mk f _ _ _ => f

def FileInfo.checksum : FileInfo → Str
  | .mk _ c _ _ => c

def FileInfo.recId : FileInfo → Nat
  | .mk _ _ i _ => i

def FileInfo.duplicate : FileInfo → Option FileInfo
  | .mk _ _ _ d => d

/-- The chain starting at a record, in chain order. -/
def FileInfo.toChain : FileInfo → List FileInfo
  | .mk fp cs i none => [.mk fp cs i none]
  | .mk fp cs i (some d) => .mk fp cs i (some d) :: d.toChain

/-- The tail record of a chain. -/
def FileInfo.chainLast : FileInfo → FileInfo
  | .mk fp cs i none => .mk fp cs i none
  | .mk _ _ _ (some d) => d.chainLast

/-- The `while` loop of `FileDb.addFile` that walks to the tail of the
chain and hangs the new record there. -/
def FileInfo.appendDuplicate : FileInfo → FileInfo → FileInfo
  | .mk fp cs i none, newInfo => .mk fp cs i (some newInfo)
  | .mk fp cs i (some d), newInfo => .mk fp cs i (some (d.appendDuplicate newInfo))

/-- The scanning loop inside `FileInfo.findBestMatch`: first record of the
chain whose lower-cased base name equals the (already lower-cased) query
name. -/
def FileInfo.findFirstNameMatch : FileInfo → Str → Option FileInfo
  | .mk fp cs i none, fileName =>
    if lowerStr (pathName fp) = fileName then some (.mk fp cs i none) else none
  | .mk fp cs i (some d), fileName =>
    if lowerStr (pathName fp) = fileName then some (.mk fp cs i (some d))
    else d.findFirstNameMatch fileName

/-- `FileInfo.findBestMatch`: for a single-record chain return the record
itself; otherwise scan the chain for the first case-insensitive base-name
match and fall back to the chain head. -/
def FileInfo.findBestMatch (self : FileInfo) (filePath : WinPath) : FileInfo :=
  match self.duplicate with
  | none => self
  | some _ =>
    match self.findFirstNameMatch (lowerStr (pathName filePath)) with
    | some f => f
    | none => self

/-- Specification-side reading of duplicate resolution, written from the
spec text: scan the chain in chain order for a record whose base name
matches the query path's base name case-insensitively; if none matches,
return the chain head. -/
def specBestMatch (head : FileInfo) (filePath : WinPath) : FileInfo :=
  match head.toChain.find?
      (fun f => lowerStr (pathName f.filePath) == lowerStr (pathName filePath)) with
  | some f => f
  | none => head

/-- `FileDb`: checksum → chain-head mapping (association list in dict
insertion order) plus the ordered list of algorithms seen. -/
structure FileDb where
  hashIndex : List (Str × FileInfo)
  nextId : Nat
  algorithms : List Str
deriving DecidableEq

def FileDb.empty : FileDb := ⟨[], 0, []⟩

/-- `FileDb.get`: direct map lookup. -/
def FileDb.get (db : FileDb) (checksum : Str) : Option FileInfo :=
  match db.hashIndex.find? (fun e => e.1 == checksum) with
  | some e => some e.2
  | none => none

def assocUpdate (l : List (Str × FileInfo)) (k : Str) (f : FileInfo → FileInfo) :
    List (Str × FileInfo) :=
  l.map (fun e => if e.1 = k then (e.1, f e.2) else e)

/-- `FileDb.addFile`: reject checksums of unknown length, record the
algorithm on first encounter, and append a fresh record to the tail of the
chain for this checksum (or start a new chain). -/
def FileDb.addFile (db : FileDb) (filePath : WinPath) (checksum : Str) :
    Except String FileDb :=
  match detectChecksumAlgorithm checksum with
  | none => .error ("Unknown checksum type")
  | some algorithm =>
    let algs :=
      if algorithm ∈ db.algorithms then db.algorithms else db.algorithms ++ [algorithm]
    let fileInfo : FileInfo := .mk filePath checksum db.nextId none
    let idx :=
      match db.get checksum with
      | none => db.hashIndex ++ [(checksum, fileInfo)]
      | some _ => assocUpdate db.hashIndex checksum (fun head => head.appendDuplicate fileInfo)
    .ok { hashIndex := idx, nextId := db.nextId + 1, algorithms := algs }

/-- The loop of `FileDb.__findFileInfoChain`: try each algorithm in
first-seen order, compute the query file's digest with it (digesting is
I/O, so the digest function is an oracle parameter), and return the first
chain found. -/
def FileDb.findChainLoop (db : FileDb) (hashF : Str → WinPath → Str) :
    List Str → WinPath → Option FileInfo
  | [], _ => none
  | algorithm :: rest, filePath =>
    match db.get (hashF algorithm filePath) with
    | some fi => some fi
    | none => db.findChainLoop hashF rest filePath

def FileDb.findFileInfoChain (db : FileDb) (hashF : Str → WinPath → Str)
    (filePath : WinPath) : Option FileInfo :=
  db.findChainLoop hashF db.algorithms filePath

/-- `FileDb.findFile`: locate the chain by content, then disambiguate with
`findBestMatch`. -/
def FileDb.findFile (db : FileDb) (hashF : Str → WinPath → Str)
    (filePath : WinPath) : Option FileInfo :=
  match db.findFileInfoChain hashF filePath with
  | some fi => some (fi.findBestMatch filePath)
  | none => none

theorem findFirstNameMatch_eq_find? (f : FileInfo) (name : Str) :
    f.findFirstNameMatch name =
      f.toChain.find? (fun g => lowerStr (pathName g.filePath) == name) :=
  match f with
  | .mk fp cs i none => by
    by_cases h : lowerStr (pathName fp) = name <;>
      simp [FileInfo.findFirstNameMatch, FileInfo.toChain, FileInfo.filePath, h]
  | .mk fp cs i (some d) => by
    by_cases h : lowerStr (pathName fp) = name
    · simp [FileInfo.findFirstNameMatch, FileInfo.toChain, FileInfo.filePath, h]
    · simp only [FileInfo.findFirstNameMatch, if_neg h, FileInfo.toChain, List.find?]
      have hb : (lowerStr (pathName (FileInfo.filePath (.mk fp cs i (some d)))) == name) = false := by
        simp [FileInfo.filePath, h]
      rw [hb]
      exact findFirstNameMatch_eq_find? d name

theorem findBestMatch_eq_spec (self : FileInfo) (q : WinPath) :
    self.findBestMatch q = specBestMatch self q := by
  match self with
  | .mk fp cs i none =>
    by_cases h : lowerStr (pathName fp) = lowerStr (pathName q) <;>
      simp [FileInfo.findBestMatch, specBestMatch, FileInfo.duplicate,
        FileInfo.toChain, FileInfo.filePath, h]
  | .mk fp cs i (some d) =>
    simp only [FileInfo.findBestMatch, FileInfo.duplicate, specBestMatch,
      findFirstNameMatch_eq_find? (.mk fp cs i (some d)) (lowerStr (pathName q))]

theorem get_none_find? {db : FileDb} {s : Str} (h : db.get s = none) :
    db.hashIndex.find? (fun e => e.1 == s) = none := by
  unfold FileDb.get at h
  cases hf : db.hashIndex.find? (fun e => e.1 == s) with
  | none => rfl
  | some e => rw [hf] at h; cases h

theorem get_some_find? {db : FileDb} {s : Str} {head : FileInfo}
    (h : db.get s = some head) :
    ∃ k, db.hashIndex.find? (fun e => e.1 == s) = some (k, head) := by
  unfold FileDb.get at h
  cases hf : db.hashIndex.find? (fun e => e.1 == s) with
  | none => rw [hf] at h; cases h
  | some e =>
    obtain ⟨k0, v0⟩ := e
    rw [hf] at h
    injection h with h2
    exact ⟨k0, by rw [show v0 = head from h2]⟩

theorem find?_append_of_none {α} (p : α → Bool) (l1 l2 : List α)
    (h : l1.find? p = none) : (l1 ++ l2).find? p = l2.find? p := by
  induction l1 with
  | nil => rfl
  | cons e rest ih =>
    cases hpe : p e with
    | true =>
      rw [List.find?_cons_of_pos _ hpe] at h
      cases h
    | false =>
      rw [List.find?_cons_of_neg _ (by simp [hpe])] at h
      rw [List.cons_append, List.find?_cons_of_neg _ (by simp [hpe])]
      exact ih h

theorem find?_assocUpdate (k : Str) (f : FileInfo → FileInfo) (l : List (Str × FileInfo)) :
    (assocUpdate l k f).find? (fun e => e.1 == k) =
      (l.find? (fun e => e.1 == k)).map (fun e => (e.1, f e.2)) := by
  induction l with
  | nil => rfl
  | cons e rest ih =>
    by_cases he : e.1 = k
    · rw [show assocUpdate (e :: rest) k f = (e.1, f e.2) :: assocUpdate rest k f from by
        simp [assocUpdate, he]]
      rw [List.find?_cons_of_pos _ (by simp [he]), List.find?_cons_of_pos _ (by simp [he])]
      simp
    · rw [show assocUpdate (e :: rest) k f = e :: assocUpdate rest k f from by
        simp [assocUpdate, he]]
      rw [List.find?_cons_of_neg _ (by simp [he]), List.find?_cons_of_neg _ (by simp [he])]
      exact ih

theorem chainLast_appendDuplicate : ∀ (h n : FileInfo),
    (h.appendDuplicate n).chainLast = n.chainLast
  | .mk fp cs i none, n => by
    simp [FileInfo.appendDuplicate, FileInfo.chainLast]
  | .mk fp cs i (some d), n => by
    simp [FileInfo.appendDuplicate, FileInfo.chainLast, chainLast_appendDuplicate d n]

/-- C5: `detectChecksumAlgorithm` classifies purely by string length (40 →
sha1, 64 → sha256, anything else → none), and `addFile` with a checksum of
any other length fails with the unknown-checksum-type error. -/
theorem C5_detect_by_length :
    ∀ s : Str,
      (s.length = 40 → detectChecksumAlgorithm s = some sha1Algorithm)
    ∧ (s.length = 64 → detectChecksumAlgorithm s = some defaultChecksumAlgorithm)
    ∧ (s.length ≠ 40 → s.length ≠ 64 →
        detectChecksumAlgorithm s = none ∧
        ∀ (db : FileDb) (fp : WinPath),
          db.addFile fp s = .error ("Unknown checksum type")) := by
  intro s
  refine ⟨fun h => by simp [detectChecksumAlgorithm, h],
          fun h => by simp [detectChecksumAlgorithm, h],
          fun h40 h64 => ?_⟩
  have hdet : detectChecksumAlgorithm s = none := by
    simp [detectChecksumAlgorithm, h40, h64]
  exact ⟨hdet, fun db fp => by simp [FileDb.addFile, hdet]⟩

/-- C5 witness: the three length classes on concrete strings, and the
`addFile` failure on a length-3 checksum. -/
theorem C5_detect_by_length_witness :
    detectChecksumAlgorithm (List.replicate 40 'a') = some sha1Algorithm ∧
    detectChecksumAlgorithm (List.replicate 64 'b') = some defaultChecksumAlgorithm ∧
    detectChecksumAlgorithm ['a', 'b', 'c'] = none ∧
    FileDb.empty.addFile [['p']] ['a', 'b', 'c'] = .error ("Unknown checksum type") :=
  ⟨(C5_detect_by_length _).1 (by simp),
   (C5_detect_by_length _).2.1 (by simp),
   ((C5_detect_by_length _).2.2 (by decide) (by decide)).1,
   ((C5_detect_by_length _).2.2 (by decide) (by decide)).2 FileDb.empty [['p']]⟩

/-- C10: checksum validation at the index interface is by length only —
`addFile` accepts any string of length exactly 40 or 64 (hex or not, any
case) and records it unchanged as the tail record of the chain for that
string. -/
theorem C10_addFile_length_only :
    ∀ (db : FileDb) (fp : WinPath) (s : Str),
      s.length = 40 ∨ s.length = 64 →
      ∃ db2, db.addFile fp s = .ok db2 ∧
        ∃ head, db2.get s = some head ∧
          head.chainLast = .mk fp s db.nextId none := by
  intro db fp s hlen
  have halg : ∃ alg, detectChecksumAlgorithm s = some alg := by
    rcases hlen with h | h <;> simp [detectChecksumAlgorithm, h]
  obtain ⟨alg, halg⟩ := halg
  cases hget : db.get s with
  | none =>
    refine ⟨{ hashIndex := db.hashIndex ++ [(s, .mk fp s db.nextId none)],
              nextId := db.nextId + 1,
              algorithms := if alg ∈ db.algorithms then db.algorithms
                            else db.algorithms ++ [alg] }, ?_, ?_⟩
    · simp only [FileDb.addFile, halg, hget]
    · refine ⟨.mk fp s db.nextId none, ?_, by simp [FileInfo.chainLast]⟩
      unfold FileDb.get
      rw [show ({ hashIndex := db.hashIndex ++ [(s, FileInfo.mk fp s db.nextId none)],
                  nextId := db.nextId + 1,
                  algorithms := if alg ∈ db.algorithms then db.algorithms
                                else db.algorithms ++ [alg] } : FileDb).hashIndex
            = db.hashIndex ++ [(s, FileInfo.mk fp s db.nextId none)] from rfl]
      rw [find?_append_of_none _ _ _ (get_none_find? hget)]
      rw [List.find?_cons_of_pos _ (by simp)]
  | some head0 =>
    refine ⟨{ hashIndex := assocUpdate db.hashIndex s
                (fun head => head.appendDuplicate (.mk fp s db.nextId none)),
              nextId := db.nextId + 1,
              algorithms := if alg ∈ db.algorithms then db.algorithms
                            else db.algorithms ++ [alg] }, ?_, ?_⟩
    · simp only [FileDb.addFile, halg, hget]
    · obtain ⟨k, hfind⟩ := get_some_find? hget
      refine ⟨head0.appendDuplicate (.mk fp s db.nextId none), ?_, ?_⟩
      · unfold FileDb.get
        rw [show ({ hashIndex := assocUpdate db.hashIndex s
                      (fun head => head.appendDuplicate (.mk fp s db.nextId none)),
                    nextId := db.nextId + 1,
                    algorithms := if alg ∈ db.algorithms then db.algorithms
                                  else db.algorithms ++ [alg] } : FileDb).hashIndex
              = assocUpdate db.hashIndex s
                  (fun head => head.appendDuplicate (.mk fp s db.nextId none)) from rfl]
        rw [find?_assocUpdate, hfind]
        rfl
      · rw [chainLast_appendDuplicate]
        simp [FileInfo.chainLast]

/-- C10 witness: a 40-character checksum made of non-hex upper-case
characters is accepted by `addFile` and stored verbatim. -/
theorem C10_addFile_length_only_witness :
    ∃ db2, FileDb.empty.addFile [['p']] (List.replicate 40 'Z') = .ok db2 ∧
      ∃ head, db2.get (List.replicate 40 'Z') = some head ∧
        head.chainLast = .mk [['p']] (List.replicate 40 'Z') FileDb.empty.nextId none :=
  C10_addFile_length_only FileDb.empty [['p']] (List.replicate 40 'Z')
    (Or.inl (by simp))

/-- C3: a lookup by file path that finds a chain returns exactly the record
described by the spec-side `specBestMatch` (first case-insensitive base-name
match in chain order, chain head when none matches); and on the claim's
concrete example — two records with one checksum at a/IMG_1.jpg and
b/img_1.JPG, queried with base name IMG_1.JPG — the returned record's base
name matches the query case-insensitively, and when the head's name does not
match (a/IMG_2.jpg) the second-inserted record is returned. -/
theorem C3_duplicate_resolution :
    (∀ (db : FileDb) (hashF : Str → WinPath → Str) (q : WinPath) (head : FileInfo),
        db.findFileInfoChain hashF q = some head →
        db.findFile hashF q = some (specBestMatch head q))
  ∧ (∃ db1 db2,
        FileDb.empty.addFile [['a'], "IMG_1.jpg".toList] (List.replicate 64 'f') = .ok db1 ∧
        db1.addFile [['b'], "img_1.JPG".toList] (List.replicate 64 'f') = .ok db2 ∧
        ∃ r, db2.findFile (fun _ _ => List.replicate 64 'f')
              [['c'], "IMG_1.JPG".toList] = some r ∧
          lowerStr (pathName r.filePath) =
            lowerStr (pathName [['c'], "IMG_1.JPG".toList]))
  ∧ (∃ db1 db2,
        FileDb.empty.addFile [['a'], "IMG_2.jpg".toList] (List.replicate 64 'f') = .ok db1 ∧
        db1.addFile [['b'], "img_1.JPG".toList] (List.replicate 64 'f') = .ok db2 ∧
        db2.findFile (fun _ _ => List.replicate 64 'f') [['c'], "IMG_1.JPG".toList] =
          some (.mk [['b'], "img_1.JPG".toList] (List.replicate 64 'f') 1 none)) := by
  refine ⟨?_, ?_, ?_⟩
  · intro db hashF q head hchain
    unfold FileDb.findFile
    rw [hchain]
    show some (head.findBestMatch q) = some (specBestMatch head q)
    rw [findBestMatch_eq_spec]
  · refine ⟨_, _, rfl, rfl, ⟨_, rfl, ?_⟩⟩
    decide
  · exact ⟨_, _, rfl, rfl, by decide⟩

/-- C3 witness: the general chain lemma applied to a concrete two-record
database. -/
theorem C3_duplicate_resolution_witness :
    ({ hashIndex := [(List.replicate 64 'f',
         .mk [['a'], "IMG_2.jpg".toList] (List.replicate 64 'f') 0
           (some (.mk [['b'], "img_1.JPG".toList] (List.replicate 64 'f') 1 none)))],
       nextId := 2, algorithms := [defaultChecksumAlgorithm] } : FileDb).findFile
        (fun _ _ => List.replicate 64 'f') [['c'], "IMG_1.JPG".toList] =
      some (specBestMatch
        (.mk [['a'], "IMG_2.jpg".toList] (List.replicate 64 'f') 0
          (some (.mk [['b'], "img_1.JPG".toList] (List.replicate 64 'f') 1 none)))
        [['c'], "IMG_1.JPG".toList]) :=
  C3_duplicate_resolution.1 _ _ _ _ (by decide)

/-! ## Manifest replay and recursive manifest discovery -/

/-- The loop of `FileDb.addChecksumFile`: stream the manifest lines through
the reader (CR/LF strip, skip blank lines, decode, stop on the first decode
error) and add each record, joined onto `basePath` when one is given, to the
index; an `addFile` failure also stops the stream. -/
def FileDb.addLines : FileDb → Option WinPath → List Str → Except String FileDb
  | db, _, [] => .ok db
  | db, basePath, l :: rest =>
    let l' := stripCRLF l
    if l' = [] then FileDb.addLines db basePath rest
    else
      match parseLine l' with
      | .error e => .error e
      | .ok pc =>
        let fp :=
          match basePath with
          | none => pc.1
          | some bp => bp ++ pc.1
        match FileDb.addFile db fp pc.2 with
        | .error e => .error e
        | .ok db2 => FileDb.addLines db2 basePath rest

/-- `FileDb.addChecksumFile` on the decoded content of a manifest file. -/
def FileDb.addChecksumFile (db : FileDb) (basePath : Option WinPath)
    (lines : List Str) : Except String FileDb :=
  FileDb.addLines db basePath lines

/-- A directory tree: plain files (name, raw text lines) and
subdirectories, each keyed by entry name in directory enumeration order. -/
inductive Dir where
  | node (files : List (Str × List Str)) (subdirs : List (Str × Dir))

/-- `indexFilePath.exists()` for a plain file directly inside a directory. -/
def dirFileContent? (files : List (Str × List Str)) (name : Str) : Option (List Str) :=
  match files.find? (fun e => e.1 == name) with
  | some e => some e.2
  | none => none

def sha2IndexName : Str := "Checksums.sha2".toList

def sha1IndexName : Str := "Checksums.sha1".toList

mutual

/-- `FileDb.__addIndexedTree`: if `Checksums.sha2` — or failing that
`Checksums.sha1` — exists directly in the directory, load it against the
directory's relative path and return without descending; otherwise recurse
into each subdirectory (in enumeration order, as the `scandir` loop does). -/
def FileDb.addIndexedTreeAux (db : FileDb) (tree : Dir) (relativePath : WinPath) :
    Except String FileDb :=
  match tree with
  | .node files subdirs =>
    match dirFileContent? files sha2IndexName with
    | some content => db.addChecksumFile (some relativePath) content
    | none =>
      match dirFileContent? files sha1IndexName with
      | some content => db.addChecksumFile (some relativePath) content
      | none => FileDb.addIndexedTreeList db subdirs relativePath

def FileDb.addIndexedTreeList (db : FileDb) (subdirs : List (Str × Dir))
    (relativePath : WinPath) : Except String FileDb :=
  match subdirs with
  | [] => .ok db
  | (name, d) :: rest =>
    match FileDb.addIndexedTreeAux db d (relativePath ++ [name]) with
    | .error e => .error e
    | .ok db2 => FileDb.addIndexedTreeList db2 rest relativePath

end

/-- `FileDb.addIndexedTree` (public entry): a missing relative path defaults
to the empty path. -/
def FileDb.addIndexedTree (db : FileDb) (tree : Dir)
    (relativePath : Option WinPath) : Except String FileDb :=
  FileDb.addIndexedTreeAux db tree (relativePath.getD [])

mutual

/-- Specification-side view of manifest discovery, written from the spec
text: for each directory, if `Checksums.sha2` or (failing that)
`Checksums.sha1` exists directly inside it, that single manifest (paired
with the directory's relative path) is authoritative for the whole subtree
and nothing beneath is visited; otherwise the frontier is collected from
the subdirectories in order. -/
def manifestFrontier (tree : Dir) (relativePath : WinPath) :
    List (WinPath × List Str) :=
  match tree with
  | .node files subdirs =>
    match dirFileContent? files sha2IndexName with
    | some content => [(relativePath, content)]
    | none =>
      match dirFileContent? files sha1IndexName with
      | some content => [(relativePath, content)]
      | none => manifestFrontierList subdirs relativePath

def manifestFrontierList (subdirs : List (Str × Dir)) (relativePath : WinPath) :
    List (WinPath × List Str) :=
  match subdirs with
  | [] => []
  | (name, d) :: rest =>
    manifestFrontier d (relativePath ++ [name]) ++ manifestFrontierList rest relativePath

end

/-- Loading a list of manifests (each with its base path) in order, stopping
at the first error. -/
def FileDb.loadManifests : FileDb → List (WinPath × List Str) → Except String FileDb
  | db, [] => .ok db
  | db, (rel, content) :: rest =>
    match db.addChecksumFile (some rel) content with
    | .error e => .error e
    | .ok db2 => db2.loadManifests rest

theorem loadManifests_append (l1 : List (WinPath × List Str)) :
    ∀ (db : FileDb) (l2 : List (WinPath × List Str)),
      db.loadManifests (l1 ++ l2) =
        match db.loadManifests l1 with
        | .error e => .error e
        | .ok db2 => db2.loadManifests l2 := by
  induction l1 with
  | nil => intro db l2; rfl
  | cons rc rest ih =>
    intro db l2
    obtain ⟨rel, content⟩ := rc
    rw [List.cons_append]
    show (match db.addChecksumFile (some rel) content with
          | .error e => (.error e : Except String FileDb)
          | .ok db2 => db2.loadManifests (rest ++ l2)) =
        match (match db.addChecksumFile (some rel) content with
               | .error e => (.error e : Except String FileDb)
               | .ok db2 => db2.loadManifests rest) with
        | .error e => .error e
        | .ok db2 => db2.loadManifests l2
    cases db.addChecksumFile (some rel) content with
    | error e => rfl
    | ok db2 => exact ih db2 l2

mutual

theorem addIndexedTreeAux_eq_frontier (db : FileDb) (tree : Dir) (rel : WinPath) :
    FileDb.addIndexedTreeAux db tree rel = db.loadManifests (manifestFrontier tree rel) := by
  match tree with
  | .node files subdirs =>
    unfold FileDb.addIndexedTreeAux manifestFrontier
    cases dirFileContent? files sha2IndexName with
    | some content =>
      simp only [FileDb.loadManifests]
      cases db.addChecksumFile (some rel) content <;> rfl
    | none =>
      cases dirFileContent? files sha1IndexName with
      | some content =>
        simp only [FileDb.loadManifests]
        cases db.addChecksumFile (some rel) content <;> rfl
      | none => exact addIndexedTreeList_eq_frontier db subdirs rel

theorem addIndexedTreeList_eq_frontier (db : FileDb) (subdirs : List (Str × Dir))
    (rel : WinPath) :
    FileDb.addIndexedTreeList db subdirs rel =
      db.loadManifests (manifestFrontierList subdirs rel) := by
  match subdirs with
  | [] => rfl
  | (name, d) :: rest =>
    show (match FileDb.addIndexedTreeAux db d (rel ++ [name]) with
          | .error e => (.error e : Except String FileDb)
          | .ok db2 => FileDb.addIndexedTreeList db2 rest rel) =
        db.loadManifests (manifestFrontier d (rel ++ [name]) ++ manifestFrontierList rest rel)
    rw [loadManifests_append]
    rw [← addIndexedTreeAux_eq_frontier db d (rel ++ [name])]
    cases FileDb.addIndexedTreeAux db d (rel ++ [name]) with
    | error e => rfl
    | ok db2 => exact addIndexedTreeList_eq_frontier db2 rest rel

end

/-- C7: recursive manifest discovery.  `addIndexedTree` loads exactly the
frontier manifests — in a directory holding `Checksums.sha2` (or, failing
that, `Checksums.sha1`) that one manifest is loaded against the directory's
relative path and no subdirectory of it is visited; only a directory with
neither file contributes its subdirectories' frontiers — and the three
branch shapes are exhibited explicitly. -/
theorem C7_indexed_tree_discovery :
    (∀ (db : FileDb) (tree : Dir) (rel : Option WinPath),
        db.addIndexedTree tree rel = db.loadManifests (manifestFrontier tree (rel.getD [])))
  ∧ (∀ (db : FileDb) (files : List (Str × List Str)) (subdirs : List (Str × Dir))
        (rel : WinPath) (content : List Str),
        dirFileContent? files sha2IndexName = some content →
        FileDb.addIndexedTreeAux db (.node files subdirs) rel =
          db.addChecksumFile (some rel) content)
  ∧ (∀ (db : FileDb) (files : List (Str × List Str)) (subdirs : List (Str × Dir))
        (rel : WinPath) (content : List Str),
        dirFileContent? files sha2IndexName = none →
        dirFileContent? files sha1IndexName = some content →
        FileDb.addIndexedTreeAux db (.node files subdirs) rel =
          db.addChecksumFile (some rel) content)
  ∧ (∀ (db : FileDb) (files : List (Str × List Str)) (subdirs : List (Str × Dir))
        (rel : WinPath),
        dirFileContent? files sha2IndexName = none →
        dirFileContent? files sha1IndexName = none →
        FileDb.addIndexedTreeAux db (.node files subdirs) rel =
          FileDb.addIndexedTreeList db subdirs rel) := by
  refine ⟨?_, ?_, ?_, ?_⟩
  · intro db tree rel
    exact addIndexedTreeAux_eq_frontier db tree (rel.getD [])
  · intro db files subdirs rel content h2
    unfold FileDb.addIndexedTreeAux
    rw [h2]
  · intro db files subdirs rel content h2 h1
    unfold FileDb.addIndexedTreeAux
    rw [h2, h1]
  · intro db files subdirs rel h2 h1
    unfold FileDb.addIndexedTreeAux
    rw [h2, h1]

/-- C7 witness: a two-level tree whose root has no manifest, one child with
a `Checksums.sha2` (whose own subdirectory, also holding a manifest, is not
descended into) and one child with only a `Checksums.sha1`. -/
theorem C7_indexed_tree_discovery_witness :
    FileDb.empty.addIndexedTree
      (.node []
        [(['a'], .node [(sha2IndexName, [])] [(['x'], .node [(sha1IndexName, [])] [])]),
         (['b'], .node [(sha1IndexName, [])] [])]) none =
      FileDb.empty.loadManifests
        (manifestFrontier
          (.node []
            [(['a'], .node [(sha2IndexName, [])] [(['x'], .node [(sha1IndexName, [])] [])]),
             (['b'], .node [(sha1IndexName, [])] [])]) []) ∧
    manifestFrontier
      (.node []
        [(['a'], .node [(sha2IndexName, [])] [(['x'], .node [(sha1IndexName, [])] [])]),
         (['b'], .node [(sha1IndexName, [])] [])]) [] =
      [([['a']], []), ([['b']], [])] :=
  ⟨C7_indexed_tree_discovery.1 FileDb.empty _ none, by decide⟩

/-! ## Index builder

The builder manipulates real files; its effects are modelled as explicit
state passing over an association-list file system keyed by file name
inside the target folder, with manifest file contents held at the decoded
level (the raw line codec is verified separately above).  Fallible
primitives (hashing, open, write, close, unlink, rename) consult a fault
model so that error paths can be quantified over; `rename` follows the
Windows `os.rename` semantics of failing when the destination exists —
consistent with `__removeOldIndex` unlinking the backup first.  Diagnostic
`print` output is modelled as a log of tagged entries.  `ghostCommit` is a
ghost flag recording whether the commit phase was entered; nothing reads
it. -/

inductive PyError where
  | assertionError
  | fileNotFoundError
  | fileExistsError
  | osError
  | valueError
  | validationError
deriving DecidableEq

/-- `except OSError` coverage: `FileNotFoundError` and `FileExistsError`
are `OSError` subclasses in Python. -/
def PyError.isOSError : PyError → Bool
  | .fileNotFoundError | .fileExistsError | .osError => true
  | _ => false

abbrev Manifest := List (WinPath × Str)

abbrev FS := List (Str × Manifest)

def fsLookup (fs : FS) (name : Str) : Option Manifest :=
  match fs.find? (fun e => e.1 == name) with
  | some e => some e.2
  | none => none

def fsSet (fs : FS) (name : Str) (v : Manifest) : FS :=
  match fsLookup fs name with
  | some _ => fs.map (fun e => if e.1 = name then (e.1, v) else e)
  | none => fs ++ [(name, v)]

def fsRemove (fs : FS) (name : Str) : FS :=
  fs.filter (fun e => !(e.1 == name))

inductive LogEntry where
  | missingFile (p : WinPath)
  | newFile (p : WinPath)
  | damagedFile (p : WinPath)
  | warningNoIndex
  | noFilesFound
  | reviewIndex (name : Str)
  | closeError (name : Str)
  | removeError (name : Str)
  | summaryOk
  | summaryCounts (damaged missing newFiles : Nat)
deriving DecidableEq

/-- The configuration stored by `IndexBuilder.__init__`. -/
structure Cfg where
  create : Bool
  verify : Bool
  indexFileName : Option Str
  rejectChanges : Bool
  reviewChanges : Bool
  reuseChecksums : Bool
deriving DecidableEq

/-- Fault model: which primitive file operations raise `OSError`. -/
structure Faults where
  hashFails : Str → WinPath → Bool
  openWriterFails : Bool
  writeFails : WinPath → Bool
  closeFails : Bool
  unlinkFails : Str → Bool
  renameFails : Str → Bool

def noFaults : Faults :=
  ⟨fun _ _ => false, false, fun _ => false, false, fun _ => false, fun _ => false⟩

/-- Mutable builder state plus the folder's file system and the printed
log. -/
structure St where
  fs : FS
  log : List LogEntry
  oldIndexFilePath : Option Str
  fileChecksumMap : Manifest
  newIndexFilePath : Option Str
  newIndexWriter : Option Str
  newCount : Nat
  missingCount : Nat
  damagedCount : Nat
  ghostCommit : Bool
deriving DecidableEq

/-- `calculateChecksum(fullFilePath, algorithm)`: digesting is file I/O, so
the digest value comes from an oracle and failures from the fault model
(an `IOError` is an `OSError`). -/
def calcChecksum (faults : Faults) (hashF : Str → WinPath → Str) (alg : Str)
    (p : WinPath) (st : St) : Except PyError Str × St :=
  if faults.hashFails alg p then (.error .osError, st) else (.ok (hashF alg p), st)

/-- `Path.unlink`. -/
def unlinkFile (faults : Faults) (name : Str) (st : St) : Except PyError Unit × St :=
  if faults.unlinkFails name then (.error .osError, st)
  else
    match fsLookup st.fs name with
    | none => (.error .fileNotFoundError, st)
    | some _ => (.ok (), { st with fs := fsRemove st.fs name })

/-- `Path.rename`, Windows semantics: fails when the destination exists. -/
def renameFile (faults : Faults) (src dst : Str) (st : St) : Except PyError Unit × St :=
  if faults.renameFails src then (.error .osError, st)
  else
    match fsLookup st.fs src with
    | none => (.error .fileNotFoundError, st)
    | some v =>
      match fsLookup st.fs dst with
      | some _ => (.error .fileExistsError, st)
      | none => (.ok (), { st with fs := fsSet (fsRemove st.fs src) dst v })

/-- `IndexBuilder.__getIndexFilePath`: the explicit name, or the default
`Checksums.sha2`. -/
def getIndexFilePath (cfg : Cfg) : Str :=
  match cfg.indexFileName with
  | some n => n
  | none => sha2IndexName

/-- `IndexBuilder.__openOldIndex`: open the primary index; on
`FileNotFoundError` try `Checksums.sha1` when no explicit name was given;
otherwise re-raise unless also creating, in which case warn and return
nothing. -/
def openOldIndex (cfg : Cfg) (st : St) : Except PyError (Option (Str × Manifest)) × St :=
  match fsLookup st.fs (getIndexFilePath cfg) with
  | some content => (.ok (some (getIndexFilePath cfg, content)), st)
  | none =>
    match (match cfg.indexFileName with
           | none => fsLookup st.fs sha1IndexName
           | some _ => none) with
    | some content => (.ok (some (sha1IndexName, content)), st)
    | none =>
      if cfg.create then (.ok none, { st with log := st.log ++ [.warningNoIndex] })
      else (.error .fileNotFoundError, st)

/-- Python dict insertion `map[fp] = c`: overwrite in place or append. -/
def mapInsert (m : Manifest) (k : WinPath) (v : Str) : Manifest :=
  match m.find? (fun e => e.1 == k) with
  | some _ => m.map (fun e => if e.1 = k then (e.1, v) else e)
  | none => m ++ [(k, v)]

def mapGet (m : Manifest) (k : WinPath) : Option Str :=
  match m.find? (fun e => e.1 == k) with
  | some e => some e.2
  | none => none

/-- `IndexBuilder.__readOldIndex`: replay the old manifest into
`fileChecksumMap` and remember which file it came from. -/
def readOldIndex (cfg : Cfg) (st : St) : Except PyError Unit × St :=
  match openOldIndex cfg st with
  | (.error e, st2) => (.error e, st2)
  | (.ok none, st2) => (.ok (), st2)
  | (.ok (some (fp, content)), st2) =>
    (.ok (), { st2 with
      oldIndexFilePath := some fp,
      fileChecksumMap := content.foldl (fun m pc => mapInsert m pc.1 pc.2) st2.fileChecksumMap })

/-- Lexicographic comparison of character strings (`str` ordering). -/
def strLE : Str → Str → Bool
  | [], _ => true
  | _ :: _, [] => false
  | a :: as, b :: bs => if a = b then strLE as bs else decide (a < b)

def joinBackslash : WinPath → Str
  | [] => []
  | [comp] => comp
  | comp :: rest => comp ++ '\x5c' :: joinBackslash rest

/-- Path ordering used by `sorted(...)`: `PureWindowsPath` compares its
case-normalised path string.  Only determinism and being a permutation
matter to any claim, not the exact tie order. -/
def pathLE (a b : WinPath) : Bool :=
  strLE (lowerStr (joinBackslash a)) (lowerStr (joinBackslash b))

def insertPath (x : WinPath) : List WinPath → List WinPath
  | [] => [x]
  | y :: rest => if pathLE x y then x :: y :: rest else y :: insertPath x rest

/-- `sorted(...)` over relative paths (stable sort modelled by insertion
sort). -/
def sortPaths (l : List WinPath) : List WinPath := l.foldr insertPath []

/-- `IndexBuilder.__raiseValidationError`. -/
def raiseValidationError {α : Type} (st : St) : Except PyError α × St :=
  (.error .validationError, st)

/-- The reporting loop of `__checkMissing` over the sorted old-manifest
keys: count and log every key absent from the current file listing. -/
def missingLoop (fileList : List WinPath) : List WinPath → St → Except PyError Unit × St
  | [], st => (.ok (), st)
  | k :: rest, st =>
    if k ∈ fileList then missingLoop fileList rest st
    else
      missingLoop fileList rest
        { st with log := st.log ++ [.missingFile k], missingCount := st.missingCount + 1 }

/-- `IndexBuilder.__checkMissing`: nothing to do on an empty old mapping;
otherwise report missing files and, under reject policy, abort with the
validation error. -/
def checkMissing (cfg : Cfg) (fileList : List WinPath) (st : St) :
    Except PyError Unit × St :=
  if st.fileChecksumMap = [] then (.ok (), st)
  else
    match missingLoop fileList (sortPaths (st.fileChecksumMap.map Prod.fst)) st with
    | (.error e, st2) => (.error e, st2)
    | (.ok _, st2) =>
      if cfg.rejectChanges ∧ st2.missingCount > 0 then raiseValidationError st2
      else (.ok (), st2)

/-- The candidate loop of `__openNewIndex`: the temporary-name oracle
abstracts the timestamp/random-token naming; 50 candidates are examined
before the resource-exhaustion `FileExistsError`. -/
def pickTempName (fs : FS) (tempNames : Nat → Str) : Nat → Nat → Except PyError Str
  | 0, _ => .error .fileExistsError
  | fuel + 1, k =>
    if fsLookup fs (tempNames k) = none then .ok (tempNames k)
    else pickTempName fs tempNames fuel (k + 1)

/-- `IndexBuilder.__openNewIndex`: lazily create the temporary manifest
writer the first time a line must be written. -/
def openNewIndex (cfg : Cfg) (faults : Faults) (tempNames : Nat → Str) (st : St) :
    Except PyError Unit × St :=
  match st.newIndexFilePath with
  | some _ => (.ok (), st)
  | none =>
    match pickTempName st.fs tempNames 50 0 with
    | .error e => (.error e, st)
    | .ok newName =>
      if faults.openWriterFails then (.error .osError, st)
      else
        (.ok (), { st with fs := fsSet st.fs newName [],
                           newIndexWriter := some newName,
                           newIndexFilePath := some newName })

/-- `ChecksumFileWriter.write` through the open writer: append one decoded
line to the temporary manifest. -/
def writerWrite (faults : Faults) (fp : WinPath) (checksum : Str) (st : St) :
    Except PyError Unit × St :=
  match st.newIndexWriter with
  | none => (.error .valueError, st)
  | some w =>
    if faults.writeFails fp then (.error .osError, st)
    else
      match fsLookup st.fs w with
      | none => (.error .osError, st)
      | some lines => (.ok (), { st with fs := fsSet st.fs w (lines ++ [(fp, checksum)]) })

/-- The verify half of `IndexBuilder.__processFile`: look up the recorded
checksum — absent means a new file; present means compare against a digest
recomputed with the algorithm detected from the recorded value (unless
`reuseChecksums` trusts it), counting damage and aborting under reject
policy.  Returns the local variables (algorithm, checksum) handed on to the
create half. -/
def verifyFileStep (cfg : Cfg) (faults : Faults) (hashF : Str → WinPath → Str)
    (fp : WinPath) (st : St) : Except PyError (Option Str × Option Str) × St :=
  if cfg.verify then
    match mapGet st.fileChecksumMap fp with
    | none =>
      (.ok (none, none),
       { st with newCount := st.newCount + 1, log := st.log ++ [.newFile fp] })
    | some reference =>
      if cfg.reuseChecksums then (.ok (detectChecksumAlgorithm reference, some reference), st)
      else
        match (match detectChecksumAlgorithm reference with
               | some alg =>
                 match calcChecksum faults hashF alg fp st with
                 | (.error e, st2) => ((.error e : Except PyError (Option Str × Option Str)), st2)
                 | (.ok c, st2) => (.ok (some alg, some c), st2)
               | none => (.ok (none, none), st)) with
        | (.error e, st2) => (.error e, st2)
        | (.ok (alg, cs), st2) =>
          if cs ≠ some reference then
            if cfg.rejectChanges then
              raiseValidationError { st2 with damagedCount := st2.damagedCount + 1,
                                              log := st2.log ++ [.damagedFile fp] }
            else
              (.ok (alg, cs), { st2 with damagedCount := st2.damagedCount + 1,
                                         log := st2.log ++ [.damagedFile fp] })
          else (.ok (alg, cs), st2)
  else (.ok (none, none), st)

/-- The create half of `IndexBuilder.__processFile`: lazily open the new
index, recompute with the default algorithm unless the verify half already
used it, and append the line. -/
def createFileStep (cfg : Cfg) (faults : Faults) (hashF : Str → WinPath → Str)
    (tempNames : Nat → Str) (fp : WinPath) (algorithm checksum : Option Str) (st : St) :
    Except PyError Unit × St :=
  if cfg.create then
    match openNewIndex cfg faults tempNames st with
    | (.error e, st3) => (.error e, st3)
    | (.ok _, st3) =>
      match (if algorithm ≠ some defaultChecksumAlgorithm then
               calcChecksum faults hashF defaultChecksumAlgorithm fp st3
             else (.ok (checksum.getD []), st3)) with
      | (.error e, st4) => (.error e, st4)
      | (.ok c, st4) => writerWrite faults fp c st4
  else (.ok (), st)

/-- `IndexBuilder.__processFile`: the verify half followed by the create
half. -/
def processFile (cfg : Cfg) (faults : Faults) (hashF : Str → WinPath → Str)
    (tempNames : Nat → Str) (fp : WinPath) (st : St) : Except PyError Unit × St :=
  match verifyFileStep cfg faults hashF fp st with
  | (.error e, st2) => (.error e, st2)
  | (.ok (algorithm, checksum), st2) =>
    createFileStep cfg faults hashF tempNames fp algorithm checksum st2

/-- The main loop of `__process` over the sorted file list. -/
def processFiles (cfg : Cfg) (faults : Faults) (hashF : Str → WinPath → Str)
    (tempNames : Nat → Str) : List WinPath → St → Except PyError Unit × St
  | [], st => (.ok (), st)
  | fp :: rest, st =>
    match processFile cfg faults hashF tempNames fp st with
    | (.error e, st2) => (.error e, st2)
    | (.ok _, st2) => processFiles cfg faults hashF tempNames rest st2

/-- `IndexBuilder.__closeNewIndexWriter`: the field is cleared before the
close, and a close failure is either re-raised or (nothrow) logged. -/
def closeNewIndexWriter (faults : Faults) (nothrow : Bool) (st : St) :
    Except PyError Unit × St :=
  match st.newIndexWriter with
  | none => (.ok (), st)
  | some w =>
    let st2 := { st with newIndexWriter := none }
    if faults.closeFails then
      if nothrow then (.ok (), { st2 with log := st2.log ++ [.closeError w] })
      else (.error .osError, st2)
    else (.ok (), st2)

/-- `PurePath.stem` / `PurePath.suffix` split at the last dot (a name whose
only dot is leading, or which has no dot, has no suffix). -/
def lastDotSplit (s : Str) : Str × Str :=
  let rev := s.reverse
  let ext := rev.takeWhile (fun c => c ≠ '.')
  if ext.length = rev.length then (s, [])
  else
    let stemRev := rev.drop (ext.length + 1)
    if stemRev = [] then (s, [])
    else (stemRev.reverse, '.' :: ext.reverse)

/-- `with_name( stem + '.bak' + suffix )`. -/
def backupName (name : Str) : Str :=
  (lastDotSplit name).1 ++ (".bak".toList) ++ (lastDotSplit name).2

/-- `IndexBuilder.__removeOldIndex`: delete the old index outright, or
back it up by renaming over a previously deleted `.bak` sibling (ignoring a
missing backup). -/
def removeOldIndex (faults : Faults) (makeBackup : Bool) (st : St) :
    Except PyError Unit × St :=
  match st.oldIndexFilePath with
  | none => (.ok (), st)
  | some old =>
    if !makeBackup then unlinkFile faults old { st with oldIndexFilePath := none }
    else
      match (match unlinkFile faults (backupName old) { st with oldIndexFilePath := none } with
             | (.error .fileNotFoundError, st3) => ((.ok () : Except PyError Unit), st3)
             | r => r) with
      | (.error e, st3) => (.error e, st3)
      | (.ok _, st3) => renameFile faults old (backupName old) st3

/-- `IndexBuilder.__renameNewIndex`: clear the field, then rename the
temporary manifest onto the canonical index path. -/
def renameNewIndex (cfg : Cfg) (faults : Faults) (st : St) : Except PyError Unit × St :=
  match st.newIndexFilePath with
  | none => (.ok (), st)
  | some nf =>
    match closeNewIndexWriter faults false st with
    | (.error e, st2) => (.error e, st2)
    | (.ok _, st2) =>
      renameFile faults nf (getIndexFilePath cfg) { st2 with newIndexFilePath := none }

/-- `IndexBuilder.__commitNewIndex`: close the writer; report when nothing
was created; under review policy with findings, hold the new manifest
aside and return false; otherwise remove or back up the old index and
promote the temporary one.  Sets the ghost commit flag on entry. -/
def commitLogNoFiles (st : St) : St :=
  match st.newIndexFilePath with
  | none => { st with log := st.log ++ [.noFilesFound] }
  | some _ => st

/-- `success = self.__missingCount == 0 and self.__damagedCount == 0`. -/
def commitSuccess (st : St) : Bool := st.missingCount == 0 && st.damagedCount == 0

/-- The review-policy hold: forget the temporary manifest's path (so cleanup
will not delete it) and report it. -/
def commitReviewHold (st : St) : St :=
  match st.newIndexFilePath with
  | some nf => { st with newIndexFilePath := none, log := st.log ++ [.reviewIndex nf] }
  | none => st

def commitNewIndex (cfg : Cfg) (faults : Faults) (st : St) : Except PyError Bool × St :=
  match closeNewIndexWriter faults false { st with ghostCommit := true } with
  | (.error e, st1) => (.error e, st1)
  | (.ok _, st1) =>
    if !(commitSuccess (commitLogNoFiles st1)) && cfg.reviewChanges then
      (.ok false, commitReviewHold (commitLogNoFiles st1))
    else
      match removeOldIndex faults (!(commitSuccess (commitLogNoFiles st1)))
          (commitLogNoFiles st1) with
      | (.error e, st3) => (.error e, st3)
      | (.ok _, st3) =>
        match renameNewIndex cfg faults st3 with
        | (.error e, st4) => (.error e, st4)
        | (.ok _, st4) => (.ok true, st4)

/-- `IndexBuilder.__cleanup`: close the writer without throwing; delete the
never-promoted temporary manifest, logging (never raising) `OSError`s. -/
def cleanup (faults : Faults) (st : St) : Except PyError Unit × St :=
  match closeNewIndexWriter faults true st with
  | (.error e, st1) => (.error e, st1)
  | (.ok _, st1) =>
    match st1.newIndexFilePath with
    | none => (.ok (), st1)
    | some nf =>
      match unlinkFile faults nf { st1 with newIndexFilePath := none } with
      | (.error e, st3) =>
        if e.isOSError then (.ok (), { st3 with log := st3.log ++ [.removeError nf] })
        else (.error e, st3)
      | (.ok _, st3) => (.ok (), st3)

/-- `IndexBuilder.__process`: read the old index when verifying, sort the
walker's file listing, check for missing files when verifying, process each
file, then either report the verify outcome or commit. -/
def IndexBuilder.process (cfg : Cfg) (faults : Faults) (hashF : Str → WinPath → Str)
    (tempNames : Nat → Str) (fileListRaw : List WinPath) (st : St) :
    Except PyError Bool × St :=
  match (if cfg.verify then readOldIndex cfg st else (.ok (), st)) with
  | (.error e, st1) => (.error e, st1)
  | (.ok _, st1) =>
    match (if cfg.verify then checkMissing cfg (sortPaths fileListRaw) st1
           else (.ok (), st1)) with
    | (.error e, st2) => (.error e, st2)
    | (.ok _, st2) =>
      match processFiles cfg faults hashF tempNames (sortPaths fileListRaw) st2 with
      | (.error e, st3) => (.error e, st3)
      | (.ok _, st3) =>
        if !cfg.create then
          (.ok (st3.missingCount == 0 && st3.damagedCount == 0), st3)
        else commitNewIndex cfg faults st3

/-- `IndexBuilder.run`: the `assert` on the flags, then `__process` inside
`try/finally`-style guaranteed cleanup, then the per-folder summary line
(only reached when no exception escaped). -/
def IndexBuilder.run (cfg : Cfg) (faults : Faults) (hashF : Str → WinPath → Str)
    (tempNames : Nat → Str) (fileListRaw : List WinPath) (st : St) :
    Except PyError Bool × St :=
  if !(cfg.create || cfg.verify) then (.error .assertionError, st)
  else
    match IndexBuilder.process cfg faults hashF tempNames fileListRaw st with
    | (r, st1) =>
      match cleanup faults st1 with
      | (.error e2, st2) => (.error e2, st2)
      | (.ok _, st2) =>
        match r with
        | .error e => (.error e, st2)
        | .ok rc =>
          let summary :=
            if st2.missingCount = 0 ∧ st2.damagedCount = 0 ∧ st2.newCount = 0 then
              LogEntry.summaryOk
            else LogEntry.summaryCounts st2.damagedCount st2.missingCount st2.newCount
          (.ok rc, { st2 with log := st2.log ++ [summary] })

/-- The fresh per-run state set up by `IndexBuilder.__init__` over a given
folder content. -/
def initSt (fs : FS) : St :=
  { fs := fs, log := [], oldIndexFilePath := none, fileChecksumMap := [],
    newIndexFilePath := none, newIndexWriter := none,
    newCount := 0, missingCount := 0, damagedCount := 0, ghostCommit := false }

/-- `IndexBuilder.__init__`: pure storage of the configuration — note that
no flag validation happens at construction; the `assert` sits at the top of
`run`. -/
def IndexBuilder.mkCfg (create verify : Bool) (indexFileName : Option Str)
    (rejectChanges reviewChanges reuseChecksums : Bool) : Cfg :=
  { create := create, verify := verify, indexFileName := indexFileName,
    rejectChanges := rejectChanges, reviewChanges := reviewChanges,
    reuseChecksums := reuseChecksums }

/-! ### Error classification and cleanup lemmas -/

theorem missingLoop_eq (fileList : List WinPath) :
    ∀ (ks : List WinPath) (st : St),
      missingLoop fileList ks st =
        (.ok (), { st with
          log := st.log ++
            (ks.filter (fun k => !(decide (k ∈ fileList)))).map LogEntry.missingFile,
          missingCount := st.missingCount +
            (ks.filter (fun k => !(decide (k ∈ fileList)))).length }) := by
  intro ks
  induction ks with
  | nil => intro st; simp [missingLoop]
  | cons k rest ih =>
    intro st
    by_cases hk : k ∈ fileList
    · have hstep : missingLoop fileList (k :: rest) st = missingLoop fileList rest st := by
        simp [missingLoop, hk]
      rw [hstep, ih st]
      simp [hk]
    · have hstep : missingLoop fileList (k :: rest) st =
          missingLoop fileList rest
            { st with log := st.log ++ [.missingFile k],
                      missingCount := st.missingCount + 1 } := by
        simp [missingLoop, hk]
      rw [hstep, ih _]
      simp [hk, List.filter_cons]
      omega

theorem calcChecksum_no_assert {faults hashF alg p st e}
    (h : (calcChecksum faults hashF alg p st).1 = .error e) : e ≠ .assertionError := by
  unfold calcChecksum at h
  split at h <;> simp_all <;> (cases h; decide)

theorem unlinkFile_err_os {faults name st e}
    (h : (unlinkFile faults name st).1 = .error e) : e.isOSError = true := by
  unfold unlinkFile at h
  split at h
  · simp_all
    cases h
    decide
  · split at h <;> simp_all <;> (cases h; decide)

theorem renameFile_err_os {faults src dst st e}
    (h : (renameFile faults src dst st).1 = .error e) : e.isOSError = true := by
  unfold renameFile at h
  split at h
  · simp_all
    cases h
    decide
  · split at h
    · simp_all
      cases h
      decide
    · split at h <;> simp_all <;> (cases h; decide)

theorem openOldIndex_no_assert {cfg st e}
    (h : (openOldIndex cfg st).1 = .error e) : e ≠ .assertionError := by
  unfold openOldIndex at h
  split at h
  · simp_all
  · split at h
    · simp_all
    · split at h <;> simp_all <;> (cases h; decide)

theorem readOldIndex_no_assert {cfg st e}
    (h : (readOldIndex cfg st).1 = .error e) : e ≠ .assertionError := by
  unfold readOldIndex at h
  cases ho : openOldIndex cfg st with
  | mk r st2 =>
    rw [ho] at h
    cases r with
    | error e2 =>
      simp at h
      subst h
      exact openOldIndex_no_assert (by rw [ho])
    | ok v =>
      match v with
      | none => simp at h
      | some (fp, content) => simp at h

theorem no_assert_of_os {e : PyError} (h : e.isOSError = true) : e ≠ .assertionError := by
  intro he
  subst he
  simp [PyError.isOSError] at h

theorem pickTempName_err {fs : FS} {tempNames : Nat → Str} :
    ∀ {fuel k : Nat} {e : PyError},
      pickTempName fs tempNames fuel k = .error e → e = .fileExistsError := by
  intro fuel
  induction fuel with
  | zero =>
    intro k e h
    cases h
    rfl
  | succ n ih =>
    intro k e h
    unfold pickTempName at h
    split at h
    · cases h
    · exact ih h

theorem openNewIndex_no_assert {cfg faults tempNames st e}
    (h : (openNewIndex cfg faults tempNames st).1 = .error e) : e ≠ .assertionError := by
  unfold openNewIndex at h
  split at h
  · simp_all
  · split at h
    · simp at h
      subst h
      rename_i heq
      rw [pickTempName_err heq]
      decide
    · split at h <;> simp_all <;> (cases h; decide)

theorem writerWrite_no_assert {faults fp checksum st e}
    (h : (writerWrite faults fp checksum st).1 = .error e) : e ≠ .assertionError := by
  unfold writerWrite at h
  split at h
  · simp at h
    subst h
    decide
  · split at h
    · simp at h
      subst h
      decide
    · split at h <;> simp_all <;> (cases h; decide)

theorem verifyFileStep_no_assert {cfg faults hashF fp st e}
    (h : (verifyFileStep cfg faults hashF fp st).1 = .error e) : e ≠ .assertionError := by
  unfold verifyFileStep at h
  split at h
  · split at h
    · simp_all
    · split at h
      · simp_all
      · split at h
        · -- error outcome of the detect/recompute inner match
          rename_i e2 st2 heq
          simp at h
          subst h
          split at heq
          · rename_i alg halg
            split at heq
            · rename_i ec stc heq2
              simp at heq
              exact heq.1 ▸ calcChecksum_no_assert (by rw [heq2])
            · simp at heq
          · simp at heq
        · -- ok outcome, then the damaged comparison
          split at h
          · split at h
            · simp only [raiseValidationError] at h
              simp at h
              subst h
              decide
            · simp_all
          · simp_all
  · simp_all

theorem createFileStep_no_assert {cfg faults hashF tempNames fp algorithm checksum st e}
    (h : (createFileStep cfg faults hashF tempNames fp algorithm checksum st).1 = .error e) :
    e ≠ .assertionError := by
  unfold createFileStep at h
  split at h
  · split at h
    · simp at h
      rename_i heq
      subst h
      exact openNewIndex_no_assert (by rw [heq])
    · rename_i a st3 heq0
      cases hrec : (if algorithm ≠ some defaultChecksumAlgorithm then
          calcChecksum faults hashF defaultChecksumAlgorithm fp st3
        else (.ok (checksum.getD []), st3)) with
      | mk r st4 =>
        rw [hrec] at h
        cases r with
        | error e2 =>
          simp at h
          subst h
          split at hrec
          · exact calcChecksum_no_assert (by rw [hrec])
          · cases hrec
        | ok c =>
          simp only [] at h
          exact writerWrite_no_assert h
  · simp_all

theorem processFile_no_assert {cfg faults hashF tempNames fp st e}
    (h : (processFile cfg faults hashF tempNames fp st).1 = .error e) : e ≠ .assertionError := by
  unfold processFile at h
  split at h
  · simp at h
    rename_i heq
    subst h
    exact verifyFileStep_no_assert (by rw [heq])
  · exact createFileStep_no_assert h

theorem processFiles_no_assert {cfg faults hashF tempNames} :
    ∀ {files : List WinPath} {st e},
      (processFiles cfg faults hashF tempNames files st).1 = .error e →
      e ≠ .assertionError := by
  intro files
  induction files with
  | nil =>
    intro st e h
    cases h
  | cons fp rest ih =>
    intro st e h
    unfold processFiles at h
    split at h
    · simp at h
      rename_i heq
      subst h
      exact processFile_no_assert (by rw [heq])
    · exact ih h

theorem closeNewIndexWriter_err_os {faults nothrow st e}
    (h : (closeNewIndexWriter faults nothrow st).1 = .error e) : e.isOSError = true := by
  unfold closeNewIndexWriter at h
  split at h
  · cases h
  · split at h
    · split at h
      · cases h
      · simp at h
        subst h
        decide
    · cases h

theorem closeNothrow_ok (faults : Faults) (st : St) :
    (closeNewIndexWriter faults true st).1 = .ok () := by
  unfold closeNewIndexWriter
  split
  · rfl
  · split
    · rfl
    · rfl

theorem removeOldIndex_err_os {faults makeBackup st e}
    (h : (removeOldIndex faults makeBackup st).1 = .error e) : e.isOSError = true := by
  unfold removeOldIndex at h
  split at h
  · cases h
  · split at h
    · exact unlinkFile_err_os h
    · split at h
      · rename_i e2 st2 heq
        simp at h
        subst h
        split at heq
        · exact absurd heq (by simp)
        · exact unlinkFile_err_os (by rw [heq])
      · exact renameFile_err_os h

theorem renameNewIndex_err_os {cfg faults st e}
    (h : (renameNewIndex cfg faults st).1 = .error e) : e.isOSError = true := by
  unfold renameNewIndex at h
  split at h
  · cases h
  · split at h
    · simp at h
      rename_i heq
      subst h
      exact closeNewIndexWriter_err_os (by rw [heq])
    · exact renameFile_err_os h

theorem commitNewIndex_err_os {cfg faults st e}
    (h : (commitNewIndex cfg faults st).1 = .error e) : e.isOSError = true := by
  unfold commitNewIndex at h
  split at h
  · simp at h
    rename_i heq
    subst h
    exact closeNewIndexWriter_err_os (by rw [heq])
  · split at h
    · cases h
    · split at h
      · simp at h
        rename_i heq
        subst h
        exact removeOldIndex_err_os (by rw [heq])
      · split at h
        · simp at h
          rename_i heq
          subst h
          exact renameNewIndex_err_os (by rw [heq])
        · cases h

theorem checkMissing_err_validation {cfg fileList st e}
    (h : (checkMissing cfg fileList st).1 = .error e) : e = .validationError := by
  unfold checkMissing at h
  split at h
  · cases h
  · split at h
    · rename_i heq
      rw [missingLoop_eq] at heq
      cases heq
    · split at h
      · simp [raiseValidationError] at h
        exact h.symm
      · cases h

theorem process_no_assert {cfg faults hashF tempNames fileListRaw st e}
    (h : (IndexBuilder.process cfg faults hashF tempNames fileListRaw st).1 = .error e) :
    e ≠ .assertionError := by
  unfold IndexBuilder.process at h
  split at h
  · rename_i heq
    simp at h
    subst h
    split at heq
    · exact readOldIndex_no_assert (by rw [heq])
    · cases heq
  · split at h
    · rename_i e2 st2 heq
      simp at h
      subst h
      split at heq
      · have hv : e2 = PyError.validationError := checkMissing_err_validation (by rw [heq])
        subst hv
        decide
      · exact absurd heq (by simp)
    · split at h
      · rename_i heq
        simp at h
        subst h
        exact processFiles_no_assert (by rw [heq])
      · split at h
        · cases h
        · exact no_assert_of_os (commitNewIndex_err_os h)

theorem cleanup_ok (faults : Faults) (st : St) : (cleanup faults st).1 = .ok () := by
  unfold cleanup
  split
  · rename_i e st1 heq
    have hok := closeNothrow_ok faults st
    rw [heq] at hok
    cases hok
  · split
    · rfl
    · split
      · split
        · rfl
        · rename_i heq hcond
          exact absurd (unlinkFile_err_os (by rw [heq])) hcond
      · rfl

/-- C9 (amended): `IndexBuilder.__init__` performs no flag validation —
construction always succeeds — and the at-least-one-flag requirement is
enforced only when `run` starts: `run` raises `AssertionError` exactly when
both flags are unset, and in that case it raises before touching any state
(no read, no write, not even the cleanup step runs).  The claim as stated —
failure at construction time — is refuted by
`C9_construction_counterexample`. -/
theorem C9_flag_check_at_run :
    (∀ (cfg : Cfg) (faults : Faults) (hashF : Str → WinPath → Str)
        (tempNames : Nat → Str) (fileListRaw : List WinPath) (fs : FS),
        ((IndexBuilder.run cfg faults hashF tempNames fileListRaw (initSt fs)).1
            = .error .assertionError)
          ↔ (cfg.create = false ∧ cfg.verify = false))
  ∧ (∀ (cfg : Cfg) (faults : Faults) (hashF : Str → WinPath → Str)
        (tempNames : Nat → Str) (fileListRaw : List WinPath) (fs : FS),
        cfg.create = false → cfg.verify = false →
        IndexBuilder.run cfg faults hashF tempNames fileListRaw (initSt fs)
          = (.error .assertionError, initSt fs)) := by
  constructor
  · intro cfg faults hashF tempNames fileListRaw fs
    constructor
    · intro h
      by_cases hcv : cfg.create = false ∧ cfg.verify = false
      · exact hcv
      · exfalso
        have hflag : (cfg.create || cfg.verify) = true := by
          cases hc : cfg.create <;> cases hv : cfg.verify <;> simp_all
        unfold IndexBuilder.run at h
        rw [hflag] at h
        simp only [Bool.not_true, Bool.false_eq_true, if_false] at h
        cases hp : IndexBuilder.process cfg faults hashF tempNames fileListRaw (initSt fs) with
        | mk r st1 =>
          rw [hp] at h
          cases hcl : cleanup faults st1 with
          | mk rc st2 =>
            rw [hcl] at h
            cases rc with
            | error e2 =>
              have := cleanup_ok faults st1
              rw [hcl] at this
              cases this
            | ok u =>
              cases r with
              | error e =>
                simp at h
                exact process_no_assert (by rw [hp, h]) rfl
              | ok rc2 => simp at h
    · intro ⟨h1, h2⟩
      unfold IndexBuilder.run
      simp [h1, h2]
  · intro cfg faults hashF tempNames fileListRaw fs h1 h2
    unfold IndexBuilder.run
    simp [h1, h2]

/-- C9 witness: the amended behaviour on concrete inputs — with both flags
unset `run` asserts and leaves the state untouched; with `verify` set it
does not assert. -/
theorem C9_flag_check_at_run_witness :
    IndexBuilder.run (IndexBuilder.mkCfg false false none true true false) noFaults
        (fun _ _ => []) (fun _ => []) [] (initSt [])
      = (.error .assertionError, initSt []) ∧
    ¬ ((IndexBuilder.run (IndexBuilder.mkCfg false true none true true false) noFaults
        (fun _ _ => []) (fun _ => []) [] (initSt [(sha2IndexName, [])])).1
      = .error .assertionError) :=
  ⟨C9_flag_check_at_run.2 _ noFaults _ _ _ _ rfl rfl,
   fun h => by cases (C9_flag_check_at_run.1 _ noFaults _ _ _ _).mp h with
     | intro h1 h2 => cases h2⟩

/-- C9 counterexample: constructing an `IndexBuilder` with both `create`
and `verify` unset does not fail — `__init__` merely stores the flags and
returns a builder — and the error (an `AssertionError`, from the `assert`
at the top of `run`, not a validated-configuration error) appears only when
`run` is called. -/
theorem C9_construction_counterexample :
    (IndexBuilder.mkCfg false false none true true false).create = false ∧
    (IndexBuilder.mkCfg false false none true true false).verify = false ∧
    (IndexBuilder.mkCfg false false none true true false).rejectChanges = true ∧
    IndexBuilder.run (IndexBuilder.mkCfg false false none true true false) noFaults
        (fun _ _ => []) (fun _ => []) [] (initSt [])
      = (.error .assertionError, initSt []) :=
  ⟨rfl, rfl, rfl, rfl⟩

/-- C8: evaluation at the failing input.  A create-and-verify run over a
directory tree with no files, in a folder whose `Checksums.sha2` exists but
lists nothing: the commit phase prints the no-files report but — lacking an
early return — still runs `__removeOldIndex`, deleting the pre-existing
manifest, and returns true. -/
theorem C8_empty_tree_commit_bug :
    (IndexBuilder.run (IndexBuilder.mkCfg true true none true true false) noFaults
        (fun _ _ => []) (fun _ => []) [] (initSt [(sha2IndexName, [])])).1 = .ok true ∧
    LogEntry.noFilesFound ∈
      (IndexBuilder.run (IndexBuilder.mkCfg true true none true true false) noFaults
        (fun _ _ => []) (fun _ => []) [] (initSt [(sha2IndexName, [])])).2.log ∧
    fsLookup
      (IndexBuilder.run (IndexBuilder.mkCfg true true none true true false) noFaults
        (fun _ _ => []) (fun _ => []) [] (initSt [(sha2IndexName, [])])).2.fs
      sha2IndexName = none := by
  refine ⟨rfl, ?_, rfl⟩
  decide

/-! ### Sorting and map-key lemmas -/

theorem mem_insertPath {x a : WinPath} :
    ∀ {l : List WinPath}, a ∈ insertPath x l ↔ a = x ∨ a ∈ l := by
  intro l
  induction l with
  | nil => simp [insertPath]
  | cons y rest ih =>
    unfold insertPath
    split
    · simp
    · simp [ih]
      tauto

theorem mem_sortPaths {a : WinPath} : ∀ {l : List WinPath}, a ∈ sortPaths l ↔ a ∈ l := by
  intro l
  induction l with
  | nil => simp [sortPaths]
  | cons x rest ih =>
    show a ∈ insertPath x (sortPaths rest) ↔ _
    rw [mem_insertPath]
    simp [ih]

theorem keys_mapInsert {m : Manifest} {k : WinPath} {v : Str} {a : WinPath} :
    a ∈ (mapInsert m k v).map Prod.fst ↔ a ∈ m.map Prod.fst ∨ a = k := by
  unfold mapInsert
  cases hfind : m.find? (fun e => e.1 == k) with
  | none => simp
  | some e =>
    have hek : e.1 = k := by
      have := List.find?_some hfind
      simpa using this
    have hmem : e ∈ m := List.mem_of_find?_eq_some hfind
    have hkeys : (m.map (fun e => if e.1 = k then (e.1, v) else e)).map Prod.fst
        = m.map Prod.fst := by
      rw [List.map_map]
      apply List.map_congr_left
      intro x hx
      by_cases hx1 : x.1 = k <;> simp [hx1]
    rw [hkeys]
    constructor
    · exact Or.inl
    · intro h
      rcases h with h | h
      · exact h
      · subst h
        exact hek ▸ List.mem_map.mpr ⟨e, hmem, rfl⟩

theorem keys_foldl_mapInsert :
    ∀ (content : Manifest) (m : Manifest) (a : WinPath),
      (a ∈ (content.foldl (fun m pc => mapInsert m pc.1 pc.2) m).map Prod.fst)
        ↔ (a ∈ m.map Prod.fst ∨ a ∈ content.map Prod.fst) := by
  intro content
  induction content with
  | nil => simp
  | cons pc rest ih =>
    intro m a
    show (a ∈ (rest.foldl _ (mapInsert m pc.1 pc.2)).map Prod.fst) ↔ _
    rw [ih]
    rw [keys_mapInsert]
    simp
    tauto

/-! ### Builder phase computation lemmas -/

theorem readOldIndex_primary {cfg : Cfg} {fs : FS} {lines : Manifest}
    (hfs : fsLookup fs (getIndexFilePath cfg) = some lines) :
    readOldIndex cfg (initSt fs) =
      (.ok (), { initSt fs with
        oldIndexFilePath := some (getIndexFilePath cfg),
        fileChecksumMap := lines.foldl (fun m pc => mapInsert m pc.1 pc.2) [] }) := by
  unfold readOldIndex openOldIndex
  rw [show (initSt fs).fs = fs from rfl, hfs]
  rfl

theorem closeNewIndexWriter_none {faults : Faults} {nothrow : Bool} {st : St}
    (hw : st.newIndexWriter = none) :
    closeNewIndexWriter faults nothrow st = (.ok (), st) := by
  unfold closeNewIndexWriter
  split
  · rfl
  · rename_i w heq
    rw [hw] at heq
    cases heq

theorem cleanup_noop {faults : Faults} {st : St}
    (hw : st.newIndexWriter = none) (hn : st.newIndexFilePath = none) :
    cleanup faults st = (.ok (), st) := by
  unfold cleanup
  rw [closeNewIndexWriter_none hw]
  simp [hn]

theorem checkMissing_rejects {cfg : Cfg} {fileList : List WinPath} {st : St} {k : WinPath}
    (hrej : cfg.rejectChanges = true)
    (hk : k ∈ st.fileChecksumMap.map Prod.fst)
    (hnot : k ∉ fileList) :
    checkMissing cfg fileList st =
      (.error .validationError,
       { st with
         log := st.log ++ ((sortPaths (st.fileChecksumMap.map Prod.fst)).filter
           (fun k2 => !(decide (k2 ∈ fileList)))).map LogEntry.missingFile,
         missingCount := st.missingCount + ((sortPaths (st.fileChecksumMap.map Prod.fst)).filter
           (fun k2 => !(decide (k2 ∈ fileList)))).length }) := by
  have hne : st.fileChecksumMap ≠ [] := by
    intro h0
    rw [h0] at hk
    simp at hk
  have hcnt : 0 < ((sortPaths (st.fileChecksumMap.map Prod.fst)).filter
      (fun k2 => !(decide (k2 ∈ fileList)))).length := by
    have hk1 : k ∈ sortPaths (st.fileChecksumMap.map Prod.fst) := mem_sortPaths.mpr hk
    have hk2 : (!(decide (k ∈ fileList))) = true := by simp [hnot]
    have hmem : k ∈ (sortPaths (st.fileChecksumMap.map Prod.fst)).filter
        (fun k2 => !(decide (k2 ∈ fileList))) := List.mem_filter.mpr ⟨hk1, hk2⟩
    exact List.length_pos.mpr (List.ne_nil_of_mem hmem)
  unfold checkMissing
  rw [if_neg hne]
  simp only [missingLoop_eq]
  rw [if_pos]
  · rfl
  · exact ⟨hrej, Nat.lt_of_lt_of_le hcnt (Nat.le_add_left _ _)⟩

theorem process_checkMissing_error {cfg : Cfg} {faults : Faults}
    {hashF : Str → WinPath → Str} {tempNames : Nat → Str} {fileListRaw : List WinPath}
    {st st1 st2 : St} {e : PyError}
    (hver : cfg.verify = true)
    (hread : readOldIndex cfg st = (.ok (), st1))
    (hcm : checkMissing cfg (sortPaths fileListRaw) st1 = (.error e, st2)) :
    IndexBuilder.process cfg faults hashF tempNames fileListRaw st = (.error e, st2) := by
  unfold IndexBuilder.process
  simp only [hver, if_true, hread, hcm]

theorem run_of_process_error {cfg : Cfg} {faults : Faults}
    {hashF : Str → WinPath → Str} {tempNames : Nat → Str} {fileListRaw : List WinPath}
    {st st2 : St} {e : PyError}
    (hflag : (cfg.create || cfg.verify) = true)
    (hproc : IndexBuilder.process cfg faults hashF tempNames fileListRaw st = (.error e, st2))
    (hw : st2.newIndexWriter = none) (hn : st2.newIndexFilePath = none) :
    IndexBuilder.run cfg faults hashF tempNames fileListRaw st = (.error e, st2) := by
  unfold IndexBuilder.run
  simp only [hflag, Bool.not_true, Bool.false_eq_true, if_false, hproc,
    cleanup_noop hw hn]

/-- C4: a verifying run under reject policy over a folder whose old
manifest records at least one path absent from the directory listing raises
the distinct `IndexValidationError` right after the missing check: the run
ends with that error, the file system is untouched (in particular no new
manifest file was created or written), and no writer was ever opened. -/
theorem C4_missing_reject_aborts :
    ∀ (cfg : Cfg) (faults : Faults) (hashF : Str → WinPath → Str) (tempNames : Nat → Str)
      (fileListRaw : List WinPath) (fs : FS) (lines : Manifest) (k : WinPath) (v : Str),
      cfg.verify = true → cfg.rejectChanges = true →
      fsLookup fs (getIndexFilePath cfg) = some lines →
      (k, v) ∈ lines → k ∉ fileListRaw →
      ∃ st2 : St,
        IndexBuilder.run cfg faults hashF tempNames fileListRaw (initSt fs)
          = (.error .validationError, st2)
        ∧ st2.fs = fs ∧ st2.newIndexFilePath = none ∧ st2.newIndexWriter = none
        ∧ 0 < st2.missingCount := by
  intro cfg faults hashF tempNames fileListRaw fs lines k v hver hrej hfs hline hnot
  have hread := @readOldIndex_primary cfg fs _ hfs
  have hkmem : k ∈ (lines.foldl (fun m pc => mapInsert m pc.1 pc.2) []).map Prod.fst := by
    rw [keys_foldl_mapInsert]
    right
    exact List.mem_map.mpr ⟨(k, v), hline, rfl⟩
  have hnot2 : k ∉ sortPaths fileListRaw := fun hx => hnot (mem_sortPaths.mp hx)
  have hcm := @checkMissing_rejects cfg (sortPaths fileListRaw) { initSt fs with oldIndexFilePath := some (getIndexFilePath cfg), fileChecksumMap := lines.foldl (fun m pc => mapInsert m pc.1 pc.2) [] } k hrej hkmem hnot2
  have hproc := @process_checkMissing_error cfg faults hashF tempNames fileListRaw _ _ _ _
      hver hread hcm
  have hflag : (cfg.create || cfg.verify) = true := by rw [hver]; simp
  have hcnt : 0 < ((sortPaths (((lines.foldl (fun m pc => mapInsert m pc.1 pc.2) []).map
      Prod.fst))).filter (fun k2 => !(decide (k2 ∈ sortPaths fileListRaw)))).length := by
    have hk1 : k ∈ sortPaths ((lines.foldl (fun m pc => mapInsert m pc.1 pc.2) []).map
        Prod.fst) := mem_sortPaths.mpr hkmem
    have hk2 : (!(decide (k ∈ sortPaths fileListRaw))) = true := by simp [hnot2]
    have hmem : k ∈ (sortPaths ((lines.foldl (fun m pc => mapInsert m pc.1 pc.2) []).map
        Prod.fst)).filter (fun k2 => !(decide (k2 ∈ sortPaths fileListRaw))) :=
      List.mem_filter.mpr ⟨hk1, hk2⟩
    exact List.length_pos.mpr (List.ne_nil_of_mem hmem)
  exact ⟨_, run_of_process_error hflag hproc rfl rfl, rfl, rfl, rfl,
    Nat.lt_of_lt_of_le hcnt (Nat.le_add_left _ _)⟩

/-- C4 witness: a concrete reject-policy verify run whose old manifest
lists a file that is gone from the directory. -/
theorem C4_missing_reject_aborts_witness :
    ∃ st2 : St,
      IndexBuilder.run (IndexBuilder.mkCfg false true none true true false) noFaults
          (fun _ _ => []) (fun _ => []) []
          (initSt [(sha2IndexName, [([['a']], List.replicate 64 'f')])])
        = (.error .validationError, st2)
      ∧ st2.fs = [(sha2IndexName, [([['a']], List.replicate 64 'f')])]
      ∧ st2.newIndexFilePath = none ∧ st2.newIndexWriter = none
      ∧ 0 < st2.missingCount :=
  C4_missing_reject_aborts (IndexBuilder.mkCfg false true none true true false) noFaults
    (fun _ _ => []) (fun _ => []) []
    [(sha2IndexName, [([['a']], List.replicate 64 'f')])]
    [([['a']], List.replicate 64 'f')] [['a']] (List.replicate 64 'f')
    rfl rfl (by decide) (by decide) (by decide)

/-! ### File-system association-list lemmas -/

theorem fsLookup_none_find? {fs : FS} {n : Str} (h : fsLookup fs n = none) :
    fs.find? (fun e => e.1 == n) = none := by
  unfold fsLookup at h
  cases hf : fs.find? (fun e => e.1 == n) with
  | none => rfl
  | some e => rw [hf] at h; cases h

theorem fsLookup_append_single (fs : FS) (n m : Str) (v : Manifest) :
    fsLookup (fs ++ [(n, v)]) m =
      match fsLookup fs m with
      | some w => some w
      | none => if m = n then some v else none := by
  unfold fsLookup
  induction fs with
  | nil =>
    simp only [List.nil_append, List.find?]
    by_cases hmn : m = n
    · subst hmn
      simp
    · have hb : (n == m) = false := by
        simp
        exact fun hc => hmn hc.symm
      simp [hb, hmn]
  | cons e rest ih =>
    by_cases hem : (e.1 == m) = true
    · rw [List.cons_append,
        List.find?_cons_of_pos (p := fun (x : Str × Manifest) => x.1 == m) _ hem,
        List.find?_cons_of_pos (p := fun (x : Str × Manifest) => x.1 == m) _ hem]
    · rw [List.cons_append,
        List.find?_cons_of_neg (p := fun (x : Str × Manifest) => x.1 == m) _ (by simpa using hem),
        List.find?_cons_of_neg (p := fun (x : Str × Manifest) => x.1 == m) _ (by simpa using hem)]
      exact ih

theorem fsLookup_map_replace (fs : FS) (n m : Str) (v : Manifest) :
    fsLookup (fs.map (fun e => if e.1 = n then (e.1, v) else e)) m =
      match fsLookup fs m with
      | some w => if m = n then some v else some w
      | none => none := by
  unfold fsLookup
  induction fs with
  | nil => simp [List.find?]
  | cons e rest ih =>
    by_cases hen : e.1 = n
    · by_cases hem : e.1 = m
      · rw [List.map_cons, if_pos hen]
        rw [List.find?_cons_of_pos (p := fun (x : Str × Manifest) => x.1 == m) _ (by simp [hem]),
          List.find?_cons_of_pos (p := fun (x : Str × Manifest) => x.1 == m) _ (by simp [hem])]
        have hmn : m = n := by rw [← hem, hen]
        simp [hmn]
      · rw [List.map_cons, if_pos hen]
        rw [List.find?_cons_of_neg (p := fun (x : Str × Manifest) => x.1 == m) _ (by simpa using hem),
          List.find?_cons_of_neg (p := fun (x : Str × Manifest) => x.1 == m) _ (by simpa using hem)]
        exact ih
    · by_cases hem : e.1 = m
      · rw [List.map_cons, if_neg hen]
        rw [List.find?_cons_of_pos (p := fun (x : Str × Manifest) => x.1 == m) _ (by simp [hem]),
          List.find?_cons_of_pos (p := fun (x : Str × Manifest) => x.1 == m) _ (by simp [hem])]
        have hmn : m ≠ n := by rw [← hem]; exact hen
        simp [hmn]
      · rw [List.map_cons, if_neg hen]
        rw [List.find?_cons_of_neg (p := fun (x : Str × Manifest) => x.1 == m) _ (by simpa using hem),
          List.find?_cons_of_neg (p := fun (x : Str × Manifest) => x.1 == m) _ (by simpa using hem)]
        exact ih

theorem fsLookup_fsSet_self (fs : FS) (n : Str) (v : Manifest) :
    fsLookup (fsSet fs n v) n = some v := by
  unfold fsSet
  cases hl : fsLookup fs n with
  | none =>
    rw [fsLookup_append_single, hl]
    simp
  | some w =>
    rw [fsLookup_map_replace, hl]
    simp

theorem fsLookup_fsSet_ne (fs : FS) {n m : Str} (v : Manifest) (h : m ≠ n) :
    fsLookup (fsSet fs n v) m = fsLookup fs m := by
  unfold fsSet
  cases hl : fsLookup fs n with
  | none =>
    rw [fsLookup_append_single]
    cases hm : fsLookup fs m with
    | some w => rfl
    | none => simp [h]
  | some w =>
    rw [fsLookup_map_replace]
    cases hm : fsLookup fs m with
    | some w2 => simp [h]
    | none => rfl

theorem map_replace_id {fs : FS} {n : Str} {v : Manifest}
    (h : fs.find? (fun e => e.1 == n) = none) :
    fs.map (fun e => if e.1 = n then (e.1, v) else e) = fs := by
  have hall := List.find?_eq_none.mp h
  induction fs with
  | nil => rfl
  | cons e rest ih =>
    have he : ¬ (e.1 == n) = true := hall e (by simp)
    rw [List.map_cons, if_neg (by simpa using he)]
    rw [ih (List.find?_eq_none.mpr (fun x hx => hall x (List.mem_cons_of_mem _ hx)))
      (fun x hx => hall x (List.mem_cons_of_mem _ hx))]

theorem fsSet_fsSet (fs : FS) (n : Str) (v w : Manifest) :
    fsSet (fsSet fs n v) n w = fsSet fs n w := by
  cases hl : fsLookup fs n with
  | none =>
    show fsSet (fsSet fs n v) n w = fsSet fs n w
    rw [show fsSet fs n v = fs ++ [(n, v)] from by unfold fsSet; rw [hl]]
    rw [show fsSet fs n w = fs ++ [(n, w)] from by unfold fsSet; rw [hl]]
    unfold fsSet
    rw [show fsLookup (fs ++ [(n, v)]) n = some v from by
      rw [fsLookup_append_single, hl]; simp]
    rw [List.map_append, map_replace_id (fsLookup_none_find? hl)]
    simp
  | some u =>
    rw [show fsSet fs n v = fs.map (fun e => if e.1 = n then (e.1, v) else e) from by
      unfold fsSet; rw [hl]]
    rw [show fsSet fs n w = fs.map (fun e => if e.1 = n then (e.1, w) else e) from by
      unfold fsSet; rw [hl]]
    unfold fsSet
    rw [show fsLookup (fs.map (fun e => if e.1 = n then (e.1, v) else e)) n = some v from by
      rw [fsLookup_map_replace, hl]; simp]
    rw [List.map_map]
    apply List.map_congr_left
    intro e he
    by_cases hen : e.1 = n <;> simp [hen]

theorem fsLookup_fsRemove_self (fs : FS) (n : Str) :
    fsLookup (fsRemove fs n) n = none := by
  unfold fsRemove fsLookup
  induction fs with
  | nil => rfl
  | cons e rest ih =>
    by_cases hen : (e.1 == n) = true
    · rw [List.filter_cons_of_neg (by simp [hen])]
      exact ih
    · rw [List.filter_cons_of_pos (by simp [hen])]
      rw [List.find?_cons_of_neg _ (by simp_all)]
      exact ih

theorem fsLookup_fsRemove_ne (fs : FS) {n m : Str} (h : m ≠ n) :
    fsLookup (fsRemove fs n) m = fsLookup fs m := by
  unfold fsRemove fsLookup
  induction fs with
  | nil => rfl
  | cons e rest ih =>
    by_cases hen : (e.1 == n) = true
    · have hem : ¬ (e.1 == m) = true := by
        simp at hen ⊢
        rw [hen]
        exact fun hc => h hc.symm
      rw [List.filter_cons_of_neg (by simp [hen])]
      rw [List.find?_cons_of_neg (p := fun (x : Str × Manifest) => x.1 == m) _ hem]
      exact ih
    · rw [List.filter_cons_of_pos (by simp [hen])]
      by_cases hem : (e.1 == m) = true
      · rw [List.find?_cons_of_pos (p := fun (x : Str × Manifest) => x.1 == m) _ hem,
          List.find?_cons_of_pos (p := fun (x : Str × Manifest) => x.1 == m) _ hem]
      · rw [List.find?_cons_of_neg (p := fun (x : Str × Manifest) => x.1 == m) _ hem,
          List.find?_cons_of_neg (p := fun (x : Str × Manifest) => x.1 == m) _ hem]
        exact ih

theorem fsRemove_fsSet_fresh {fs : FS} {n : Str} {v : Manifest}
    (h : fsLookup fs n = none) : fsRemove (fsSet fs n v) n = fs := by
  unfold fsSet
  rw [h]
  unfold fsRemove
  rw [List.filter_append]
  rw [List.filter_cons_of_neg (by simp)]
  rw [List.filter_eq_self.mpr ?h1]
  · simp
  · intro e he
    have hall := List.find?_eq_none.mp (fsLookup_none_find? h)
    simpa using hall e he

/-! ### Checksum-map lemmas -/

theorem mapGet_none_find? {m : Manifest} {k : WinPath} (h : mapGet m k = none) :
    m.find? (fun e => e.1 == k) = none := by
  unfold mapGet at h
  cases hf : m.find? (fun e => e.1 == k) with
  | none => rfl
  | some e => rw [hf] at h; cases h

theorem mapGet_append_single (m : Manifest) (k p : WinPath) (v : Str) :
    mapGet (m ++ [(k, v)]) p =
      match mapGet m p with
      | some w => some w
      | none => if p = k then some v else none := by
  unfold mapGet
  induction m with
  | nil =>
    simp only [List.nil_append, List.find?]
    by_cases hpk : p = k
    · subst hpk
      simp
    · have hb : (k == p) = false := by
        simp
        exact fun hc => hpk hc.symm
      simp [hb, hpk]
  | cons e rest ih =>
    by_cases hem : (e.1 == p) = true
    · rw [List.cons_append,
        List.find?_cons_of_pos (p := fun (x : WinPath × Str) => x.1 == p) _ hem,
        List.find?_cons_of_pos (p := fun (x : WinPath × Str) => x.1 == p) _ hem]
    · rw [List.cons_append,
        List.find?_cons_of_neg (p := fun (x : WinPath × Str) => x.1 == p) _ (by simpa using hem),
        List.find?_cons_of_neg (p := fun (x : WinPath × Str) => x.1 == p) _ (by simpa using hem)]
      exact ih

theorem mapGet_map_replace (m : Manifest) (k p : WinPath) (v : Str) :
    mapGet (m.map (fun e => if e.1 = k then (e.1, v) else e)) p =
      match mapGet m p with
      | some w => if p = k then some v else some w
      | none => none := by
  unfold mapGet
  induction m with
  | nil => simp [List.find?]
  | cons e rest ih =>
    by_cases hek : e.1 = k
    · by_cases hep : e.1 = p
      · rw [List.map_cons, if_pos hek]
        rw [List.find?_cons_of_pos (p := fun (x : WinPath × Str) => x.1 == p) _ (by simp [hep]),
          List.find?_cons_of_pos (p := fun (x : WinPath × Str) => x.1 == p) _ (by simp [hep])]
        have hpk : p = k := by rw [← hep, hek]
        simp [hpk]
      · rw [List.map_cons, if_pos hek]
        rw [List.find?_cons_of_neg (p := fun (x : WinPath × Str) => x.1 == p) _
            (by simpa using hep),
          List.find?_cons_of_neg (p := fun (x : WinPath × Str) => x.1 == p) _
            (by simpa using hep)]
        exact ih
    · by_cases hep : e.1 = p
      · rw [List.map_cons, if_neg hek]
        rw [List.find?_cons_of_pos (p := fun (x : WinPath × Str) => x.1 == p) _ (by simp [hep]),
          List.find?_cons_of_pos (p := fun (x : WinPath × Str) => x.1 == p) _ (by simp [hep])]
        have hpk : p ≠ k := by rw [← hep]; exact hek
        simp [hpk]
      · rw [List.map_cons, if_neg hek]
        rw [List.find?_cons_of_neg (p := fun (x : WinPath × Str) => x.1 == p) _
            (by simpa using hep),
          List.find?_cons_of_neg (p := fun (x : WinPath × Str) => x.1 == p) _
            (by simpa using hep)]
        exact ih

theorem mapGet_mapInsert_self (m : Manifest) (k : WinPath) (v : Str) :
    mapGet (mapInsert m k v) k = some v := by
  unfold mapInsert
  cases hf : m.find? (fun e => e.1 == k) with
  | none =>
    rw [mapGet_append_single]
    cases hg : mapGet m k with
    | none => simp
    | some w =>
      unfold mapGet at hg
      rw [hf] at hg
      cases hg
  | some e =>
    rw [mapGet_map_replace]
    cases hg : mapGet m k with
    | none =>
      unfold mapGet at hg
      rw [hf] at hg
      cases hg
    | some w => simp

theorem mapGet_mapInsert_ne (m : Manifest) {k p : WinPath} (v : Str) (h : p ≠ k) :
    mapGet (mapInsert m k v) p = mapGet m p := by
  unfold mapInsert
  cases hf : m.find? (fun e => e.1 == k) with
  | none =>
    rw [mapGet_append_single]
    cases hg : mapGet m p with
    | some w => rfl
    | none => simp [h]
  | some e =>
    rw [mapGet_map_replace]
    cases hg : mapGet m p with
    | some w => simp [h]
    | none => rfl

theorem mapGet_fold_not_mem :
    ∀ (content : Manifest) (m : Manifest) (p : WinPath),
      p ∉ content.map Prod.fst →
      mapGet (content.foldl (fun acc pc => mapInsert acc pc.1 pc.2) m) p = mapGet m p := by
  intro content
  induction content with
  | nil => intro m p _; rfl
  | cons pc rest ih =>
    intro m p hp
    have hp1 : p ≠ pc.1 := by
      intro he
      exact hp (by simp [he])
    have hp2 : p ∉ rest.map Prod.fst := fun hx => hp (by simp [hx])
    show mapGet (rest.foldl _ (mapInsert m pc.1 pc.2)) p = _
    rw [ih _ _ hp2, mapGet_mapInsert_ne _ _ hp1]

theorem mapGet_fold_of_mem :
    ∀ (content : Manifest) (m : Manifest) (p : WinPath),
      p ∈ content.map Prod.fst →
      ∃ r, mapGet (content.foldl (fun acc pc => mapInsert acc pc.1 pc.2) m) p = some r ∧
        (p, r) ∈ content := by
  intro content
  induction content with
  | nil => intro m p hp; simp at hp
  | cons pc rest ih =>
    intro m p hp
    by_cases hrest : p ∈ rest.map Prod.fst
    · obtain ⟨r, hr1, hr2⟩ := ih (mapInsert m pc.1 pc.2) p hrest
      exact ⟨r, hr1, List.mem_cons_of_mem _ hr2⟩
    · have hp1 : p = pc.1 := by
        rw [List.map_cons, List.mem_cons] at hp
        exact hp.resolve_right hrest
      refine ⟨pc.2, ?_, ?_⟩
      · show mapGet (rest.foldl _ (mapInsert m pc.1 pc.2)) p = some pc.2
        rw [mapGet_fold_not_mem _ _ _ hrest, hp1, mapGet_mapInsert_self]
      · rw [hp1]
        exact List.mem_cons_self _ _

/-! ### Clean-run lemmas -/

/-- Lower-case hexadecimal digit, as produced by `hexdigest()`. -/
def isLowerHexDigit (c : Char) : Bool :=
  decide (('0' ≤ c ∧ c ≤ '9') ∨ ('a' ≤ c ∧ c ≤ 'f'))

/-- A 64-character lower-case hex digest — the shape of every sha256
`hexdigest()`. -/
def hex64 (s : Str) : Prop := s.length = 64 ∧ ∀ ch ∈ s, isLowerHexDigit ch = true

instance : DecidablePred hex64 := fun s => by
  unfold hex64; infer_instance

theorem openOldIndex_found {cfg : Cfg} {st st2 : St} {n : Str} {c : Manifest}
    (h : openOldIndex cfg st = (.ok (some (n, c)), st2)) :
    st2 = st ∧ fsLookup st.fs n = some c ∧
      (n = getIndexFilePath cfg ∨
        (fsLookup st.fs (getIndexFilePath cfg) = none ∧ n = sha1IndexName)) := by
  unfold openOldIndex at h
  split at h
  · rename_i content heq
    simp only [Prod.mk.injEq, Except.ok.injEq, Option.some.injEq] at h
    obtain ⟨⟨hn, hc⟩, hst⟩ := h
    subst hn hc hst
    exact ⟨rfl, heq, Or.inl rfl⟩
  · rename_i heq
    split at h
    · rename_i content heq2
      simp only [Prod.mk.injEq, Except.ok.injEq, Option.some.injEq] at h
      obtain ⟨⟨hn, hc⟩, hst⟩ := h
      subst hn hc hst
      have hsha1 : fsLookup st.fs sha1IndexName = some content := by
        cases hif : cfg.indexFileName with
        | none => rw [hif] at heq2; exact heq2
        | some x => rw [hif] at heq2; cases heq2
      exact ⟨rfl, hsha1, Or.inr ⟨heq, rfl⟩⟩
    · split at h
      · simp at h
      · cases h

theorem readOldIndex_open {cfg : Cfg} {st st2 : St} {n : Str} {c : Manifest}
    (h : openOldIndex cfg st = (.ok (some (n, c)), st2)) :
    readOldIndex cfg st =
      (.ok (), { st2 with
        oldIndexFilePath := some n,
        fileChecksumMap := c.foldl (fun m pc => mapInsert m pc.1 pc.2) st2.fileChecksumMap }) := by
  unfold readOldIndex
  rw [h]

theorem checkMissing_clean {cfg : Cfg} {fileList : List WinPath} {st : St}
    (hmc : st.missingCount = 0)
    (hsub : ∀ p ∈ st.fileChecksumMap.map Prod.fst, p ∈ fileList) :
    checkMissing cfg fileList st = (.ok (), st) := by
  unfold checkMissing
  by_cases hemp : st.fileChecksumMap = []
  · rw [if_pos hemp]
  · rw [if_neg hemp]
    simp only [missingLoop_eq]
    have hfilter : (sortPaths (st.fileChecksumMap.map Prod.fst)).filter
        (fun k2 => !(decide (k2 ∈ fileList))) = [] := by
      rw [List.filter_eq_nil_iff]
      intro a ha
      have hin : a ∈ fileList := hsub a (mem_sortPaths.mp ha)
      simp [hin]
    rw [hfilter]
    rw [if_neg (by rintro ⟨_, hgt⟩; revert hgt; simp [hmc])]
    simp

theorem verifyFileStep_clean {cfg : Cfg} {hashF : Str → WinPath → Str}
    {fp : WinPath} {st : St} {ref : Str}
    (hv : cfg.verify = true) (hr : cfg.reuseChecksums = false)
    (hget : mapGet st.fileChecksumMap fp = some ref)
    (hlen : ref.length = 40)
    (hhash : hashF sha1Algorithm fp = ref) :
    verifyFileStep cfg noFaults hashF fp st = (.ok (some sha1Algorithm, some ref), st) := by
  have hdet : detectChecksumAlgorithm ref = some sha1Algorithm := by
    unfold detectChecksumAlgorithm
    rw [hlen]
    simp
  have hcalc : calcChecksum noFaults hashF sha1Algorithm fp st =
      (.ok (hashF sha1Algorithm fp), st) := rfl
  unfold verifyFileStep
  rw [if_pos hv]
  simp only [hget]
  rw [if_neg (by rw [hr]; simp)]
  simp only [hdet, hcalc, hhash]
  rw [if_neg (by simp)]

theorem createFileStep_first {cfg : Cfg} {hashF : Str → WinPath → Str}
    {tempNames : Nat → Str} {fp : WinPath} {algorithm checksum : Option Str} {st : St}
    (hc : cfg.create = true)
    (halg : algorithm ≠ some defaultChecksumAlgorithm)
    (hn : st.newIndexFilePath = none)
    (htmp : fsLookup st.fs (tempNames 0) = none) :
    createFileStep cfg noFaults hashF tempNames fp algorithm checksum st =
      (.ok (), { st with fs := fsSet st.fs (tempNames 0) [(fp, hashF defaultChecksumAlgorithm fp)], newIndexWriter := some (tempNames 0), newIndexFilePath := some (tempNames 0) }) := by
  have hpick : pickTempName st.fs tempNames 50 0 = .ok (tempNames 0) := by
    unfold pickTempName
    rw [if_pos htmp]
  have hopen : openNewIndex cfg noFaults tempNames st =
      (.ok (), { st with fs := fsSet st.fs (tempNames 0) [], newIndexWriter := some (tempNames 0), newIndexFilePath := some (tempNames 0) }) := by
    unfold openNewIndex
    rw [hn, hpick]
    rfl
  have hcalc : ∀ st4 : St, calcChecksum noFaults hashF defaultChecksumAlgorithm fp st4 =
      (.ok (hashF defaultChecksumAlgorithm fp), st4) := fun _ => rfl
  unfold createFileStep
  rw [if_pos hc]
  simp only [hopen]
  rw [if_pos halg]
  simp only [hcalc]
  unfold writerWrite
  simp only [show (noFaults.writeFails fp) = false from rfl, Bool.false_eq_true, if_false,
    fsLookup_fsSet_self, List.nil_append, fsSet_fsSet]

theorem createFileStep_next {cfg : Cfg} {hashF : Str → WinPath → Str}
    {tempNames : Nat → Str} {fp : WinPath} {algorithm checksum : Option Str} {st : St}
    {w : Str} {cur : Manifest}
    (hc : cfg.create = true)
    (halg : algorithm ≠ some defaultChecksumAlgorithm)
    (hw : st.newIndexWriter = some w)
    (hn : st.newIndexFilePath = some w)
    (hcur : fsLookup st.fs w = some cur) :
    createFileStep cfg noFaults hashF tempNames fp algorithm checksum st =
      (.ok (), { st with fs := fsSet st.fs w (cur ++ [(fp, hashF defaultChecksumAlgorithm fp)]) }) := by
  have hopen : openNewIndex cfg noFaults tempNames st = (.ok (), st) := by
    unfold openNewIndex
    rw [hn]
  have hcalc : ∀ st4 : St, calcChecksum noFaults hashF defaultChecksumAlgorithm fp st4 =
      (.ok (hashF defaultChecksumAlgorithm fp), st4) := fun _ => rfl
  unfold createFileStep
  rw [if_pos hc]
  simp only [hopen]
  rw [if_pos halg]
  simp only [hcalc]
  unfold writerWrite
  simp only [hw, show (noFaults.writeFails fp) = false from rfl, Bool.false_eq_true,
    if_false, hcur]

theorem processFiles_clean {cfg : Cfg} {hashF : Str → WinPath → Str} {tempNames : Nat → Str}
    (hc : cfg.create = true) (hv : cfg.verify = true) (hr : cfg.reuseChecksums = false) :
    ∀ (l : List WinPath) (st : St) (w : Str) (acc : Manifest),
      st.newIndexWriter = some w →
      st.newIndexFilePath = some w →
      fsSet st.fs w acc = st.fs →
      (∀ fp ∈ l, mapGet st.fileChecksumMap fp = some (hashF sha1Algorithm fp) ∧
        (hashF sha1Algorithm fp).length = 40) →
      processFiles cfg noFaults hashF tempNames l st =
        (.ok (), { st with fs := fsSet st.fs w (acc ++ l.map (fun p => (p, hashF defaultChecksumAlgorithm p))) }) := by
  intro l
  induction l with
  | nil =>
    intro st w acc hw hn hacc hfp
    show ((.ok (), st) : Except PyError Unit × St) = _
    rw [List.map_nil, List.append_nil, hacc]
  | cons fp rest ih =>
    intro st w acc hw hn hacc hfp
    obtain ⟨hget, hlen⟩ := hfp fp (List.mem_cons_self _ _)
    have hver := @verifyFileStep_clean cfg hashF fp st (hashF sha1Algorithm fp) hv hr hget hlen rfl
    have hcur : fsLookup st.fs w = some acc := by
      rw [← hacc]
      exact fsLookup_fsSet_self _ _ _
    have halg : (some sha1Algorithm : Option Str) ≠ some defaultChecksumAlgorithm := by decide
    have hcreate := @createFileStep_next cfg hashF tempNames fp (some sha1Algorithm)
      (some (hashF sha1Algorithm fp)) st w acc hc halg hw hn hcur
    have hpf : processFile cfg noFaults hashF tempNames fp st =
        (.ok (), { st with fs := fsSet st.fs w (acc ++ [(fp, hashF defaultChecksumAlgorithm fp)]) }) := by
      unfold processFile
      simp only [hver]
      exact hcreate
    show ((match processFile cfg noFaults hashF tempNames fp st with
          | (.error e, st2) => ((.error e : Except PyError Unit), st2)
          | (.ok _, st2) => processFiles cfg noFaults hashF tempNames rest st2) :
        Except PyError Unit × St) = _
    simp only [hpf]
    rw [ih { st with fs := fsSet st.fs w (acc ++ [(fp, hashF defaultChecksumAlgorithm fp)]) } w
      (acc ++ [(fp, hashF defaultChecksumAlgorithm fp)]) hw hn
      (fsSet_fsSet st.fs w _ _)
      (fun p hp => hfp p (List.mem_cons_of_mem _ hp))]
    simp only [fsSet_fsSet, List.map_cons, List.append_assoc, List.singleton_append]

theorem closeNewIndexWriter_some {faults : Faults} {nothrow : Bool} {st : St} {w : Str}
    (hcf : faults.closeFails = false)
    (hw : st.newIndexWriter = some w) :
    closeNewIndexWriter faults nothrow st = (.ok (), { st with newIndexWriter := none }) := by
  unfold closeNewIndexWriter
  split
  · rename_i heq
    rw [hw] at heq
    cases heq
  · rename_i w2 heq
    rw [hw] at heq
    cases heq
    rw [hcf]
    simp

theorem removeOldIndex_clean {faults : Faults} {st : St} {oldM : Manifest}
    (hu : faults.unlinkFails sha1IndexName = false)
    (holdp : st.oldIndexFilePath = some sha1IndexName)
    (hlook : fsLookup st.fs sha1IndexName = some oldM) :
    removeOldIndex faults false st =
      (.ok (), { st with oldIndexFilePath := none, fs := fsRemove st.fs sha1IndexName }) := by
  unfold removeOldIndex
  rw [holdp]
  simp only [Bool.not_false, if_true]
  unfold unlinkFile
  rw [hu]
  simp only [Bool.false_eq_true, if_false, hlook]

theorem renameNewIndex_clean {cfg : Cfg} {faults : Faults} {st : St} {tmp : Str}
    {newM : Manifest}
    (hgip : getIndexFilePath cfg = sha2IndexName)
    (hrf : faults.renameFails tmp = false)
    (hw : st.newIndexWriter = none)
    (hn : st.newIndexFilePath = some tmp)
    (hsrc : fsLookup st.fs tmp = some newM)
    (hdst : fsLookup st.fs sha2IndexName = none) :
    renameNewIndex cfg faults st =
      (.ok (), { st with newIndexFilePath := none, fs := fsSet (fsRemove st.fs tmp) sha2IndexName newM }) := by
  unfold renameNewIndex
  simp only [hn, closeNewIndexWriter_none hw]
  unfold renameFile
  simp only [hgip, hrf, Bool.false_eq_true, if_false]
  simp only [hsrc, hdst]

theorem commitNewIndex_clean {cfg : Cfg} {st : St} {tmp : Str} {newM oldM : Manifest}
    (hgip : getIndexFilePath cfg = sha2IndexName)
    (hw : st.newIndexWriter = some tmp)
    (hn : st.newIndexFilePath = some tmp)
    (holdp : st.oldIndexFilePath = some sha1IndexName)
    (hmc : st.missingCount = 0) (hdc : st.damagedCount = 0)
    (hlook1 : fsLookup st.fs sha1IndexName = some oldM)
    (hlooktmp : fsLookup (fsRemove st.fs sha1IndexName) tmp = some newM)
    (hlooksha2 : fsLookup (fsRemove st.fs sha1IndexName) sha2IndexName = none) :
    commitNewIndex cfg noFaults st =
      (.ok true, { st with ghostCommit := true, newIndexWriter := none, oldIndexFilePath := none, newIndexFilePath := none, fs := fsSet (fsRemove (fsRemove st.fs sha1IndexName) tmp) sha2IndexName newM }) := by
  have hclose := @closeNewIndexWriter_some noFaults false { st with ghostCommit := true } tmp rfl hw
  have hlog : commitLogNoFiles { st with ghostCommit := true, newIndexWriter := none }
      = { st with ghostCommit := true, newIndexWriter := none } := by
    unfold commitLogNoFiles
    rw [show ({ st with ghostCommit := true, newIndexWriter := none } : St).newIndexFilePath = some tmp from hn]
  have hsucc : commitSuccess { st with ghostCommit := true, newIndexWriter := none } = true := by
    unfold commitSuccess
    rw [show ({ st with ghostCommit := true, newIndexWriter := none } : St).missingCount = 0 from hmc]
    rw [show ({ st with ghostCommit := true, newIndexWriter := none } : St).damagedCount = 0 from hdc]
    rfl
  have hrem := @removeOldIndex_clean noFaults { st with ghostCommit := true, newIndexWriter := none } oldM rfl holdp hlook1
  have hren := @renameNewIndex_clean cfg noFaults { st with ghostCommit := true, newIndexWriter := none, oldIndexFilePath := none, fs := fsRemove st.fs sha1IndexName } tmp newM hgip rfl rfl hn hlooktmp hlooksha2
  unfold commitNewIndex
  simp only [hclose, hlog, hsucc, Bool.not_true, Bool.false_and, Bool.false_eq_true, if_false]
  simp only [hrem]
  simp only [hren]

theorem run_of_process_ok {cfg : Cfg} {faults : Faults}
    {hashF : Str → WinPath → Str} {tempNames : Nat → Str} {fileListRaw : List WinPath}
    {st st2 : St} {rc : Bool}
    (hflag : (cfg.create || cfg.verify) = true)
    (hproc : IndexBuilder.process cfg faults hashF tempNames fileListRaw st = (.ok rc, st2))
    (hw : st2.newIndexWriter = none) (hn : st2.newIndexFilePath = none)
    (hmc : st2.missingCount = 0) (hdc : st2.damagedCount = 0) (hnc : st2.newCount = 0) :
    IndexBuilder.run cfg faults hashF tempNames fileListRaw st
      = (.ok rc, { st2 with log := st2.log ++ [LogEntry.summaryOk] }) := by
  unfold IndexBuilder.run
  simp only [hflag, Bool.not_true, Bool.false_eq_true, if_false, hproc, cleanup_noop hw hn]
  rw [if_pos ⟨hmc, hdc, hnc⟩]

/-- C2: with both `create` and `verify` set (checksum reuse off), over a
folder whose legacy `Checksums.sha1` manifest records a 40-character digest
for every file, whose content is unchanged (every recorded digest equals
the sha1 recomputation) and whose listing covers exactly the manifest's
paths, the run succeeds with no missing, damaged or new files — the
comparisons were necessarily made with the algorithm detected from the
40-character recorded digests, since the theorem holds for every value of
the sha256 oracle — and the promoted `Checksums.sha2` manifest pairs every
listed path with its freshly computed default-algorithm (`sha256`) digest;
whenever those digests have the 64-hex `hexdigest()` shape, every line of
the new manifest carries a 64-character digest that detects as `sha256`. -/
theorem C2_legacy_rebuild :
    ∀ (cfg : Cfg) (hashF : Str → WinPath → Str) (tempNames : Nat → Str)
      (fileListRaw : List WinPath) (fs0 : FS) (old : Manifest),
      cfg.create = true → cfg.verify = true → cfg.reuseChecksums = false →
      cfg.indexFileName = none →
      fsLookup fs0 sha2IndexName = none →
      fsLookup fs0 sha1IndexName = some old →
      (∀ pc ∈ old, pc.2 = hashF sha1Algorithm pc.1 ∧ (pc.2).length = 40) →
      (∀ p ∈ old.map Prod.fst, p ∈ fileListRaw) →
      (∀ p ∈ fileListRaw, p ∈ old.map Prod.fst) →
      fileListRaw ≠ [] →
      fsLookup fs0 (tempNames 0) = none →
      tempNames 0 ≠ sha2IndexName →
      ∃ st' : St,
        IndexBuilder.run cfg noFaults hashF tempNames fileListRaw (initSt fs0)
          = (.ok true, st')
        ∧ fsLookup st'.fs sha2IndexName
            = some ((sortPaths fileListRaw).map (fun p => (p, hashF defaultChecksumAlgorithm p)))
        ∧ st'.missingCount = 0 ∧ st'.damagedCount = 0 ∧ st'.newCount = 0
        ∧ ((∀ p, hex64 (hashF defaultChecksumAlgorithm p)) →
            ∀ e ∈ (sortPaths fileListRaw).map (fun p => (p, hashF defaultChecksumAlgorithm p)),
              hex64 e.2 ∧ detectChecksumAlgorithm e.2 = some defaultChecksumAlgorithm) := by
  intro cfg hashF tempNames fileListRaw fs0 old hc hv hr hidx hsha2 hsha1 hold hcover hchanged hnonempty htmp htmp2
  have hgip : getIndexFilePath cfg = sha2IndexName := by
    unfold getIndexFilePath
    rw [hidx]
  have hne12 : sha2IndexName ≠ sha1IndexName := by decide
  have hne1t : sha1IndexName ≠ tempNames 0 := by
    intro he
    rw [← he] at htmp
    rw [htmp] at hsha1
    cases hsha1
  have hne2t : sha2IndexName ≠ tempNames 0 := fun he => htmp2 he.symm
  have hopen : openOldIndex cfg (initSt fs0) = (.ok (some (sha1IndexName, old)), initSt fs0) := by
    unfold openOldIndex
    rw [hgip]
    rw [show (initSt fs0).fs = fs0 from rfl]
    simp only [hsha2, hidx, hsha1]
  have hread := readOldIndex_open hopen
  have hGet : ∀ p ∈ fileListRaw,
      mapGet (old.foldl (fun m (pc : WinPath × Str) => mapInsert m pc.1 pc.2) (initSt fs0).fileChecksumMap) p
        = some (hashF sha1Algorithm p) ∧ (hashF sha1Algorithm p).length = 40 := by
    intro p hp
    obtain ⟨r, hr, hrmem⟩ := mapGet_fold_of_mem old (initSt fs0).fileChecksumMap p (hchanged p hp)
    obtain ⟨h1, h2⟩ := hold (p, r) hrmem
    constructor
    · rw [hr]
      rw [show r = hashF sha1Algorithm p from h1]
    · rw [show hashF sha1Algorithm p = r from h1.symm]
      exact h2
  have hsub : ∀ p ∈ ({ initSt fs0 with oldIndexFilePath := some sha1IndexName, fileChecksumMap := old.foldl (fun m (pc : WinPath × Str) => mapInsert m pc.1 pc.2) (initSt fs0).fileChecksumMap } : St).fileChecksumMap.map Prod.fst, p ∈ sortPaths fileListRaw := by
    intro p hp
    have hp2 : p ∈ old.map Prod.fst := by
      have hsplit := (keys_foldl_mapInsert old (initSt fs0).fileChecksumMap p).mp hp
      rcases hsplit with h | h
      · rw [show (initSt fs0).fileChecksumMap = [] from rfl] at h
        simp at h
      · exact h
    exact mem_sortPaths.mpr (hcover p hp2)
  have hcm := @checkMissing_clean cfg (sortPaths fileListRaw) { initSt fs0 with oldIndexFilePath := some sha1IndexName, fileChecksumMap := old.foldl (fun m (pc : WinPath × Str) => mapInsert m pc.1 pc.2) (initSt fs0).fileChecksumMap } rfl hsub
  obtain ⟨q0, hq0⟩ := List.exists_mem_of_ne_nil fileListRaw hnonempty
  cases hsorted : sortPaths fileListRaw with
  | nil =>
    exfalso
    have hq0s : q0 ∈ sortPaths fileListRaw := mem_sortPaths.mpr hq0
    rw [hsorted] at hq0s
    cases hq0s
  | cons q qrest =>
    have hq : q ∈ fileListRaw := by
      apply mem_sortPaths.mp
      rw [hsorted]
      exact List.mem_cons_self _ _
    obtain ⟨hgetq, hlenq⟩ := hGet q hq
    have hver := @verifyFileStep_clean cfg hashF q { initSt fs0 with oldIndexFilePath := some sha1IndexName, fileChecksumMap := old.foldl (fun m (pc : WinPath × Str) => mapInsert m pc.1 pc.2) (initSt fs0).fileChecksumMap } (hashF sha1Algorithm q) hv hr hgetq hlenq rfl
    have halg : (some sha1Algorithm : Option Str) ≠ some defaultChecksumAlgorithm := by decide
    have hcreate := @createFileStep_first cfg hashF tempNames q (some sha1Algorithm)
      (some (hashF sha1Algorithm q)) { initSt fs0 with oldIndexFilePath := some sha1IndexName, fileChecksumMap := old.foldl (fun m (pc : WinPath × Str) => mapInsert m pc.1 pc.2) (initSt fs0).fileChecksumMap } hc halg rfl htmp
    have hpf : processFile cfg noFaults hashF tempNames q { initSt fs0 with oldIndexFilePath := some sha1IndexName, fileChecksumMap := old.foldl (fun m (pc : WinPath × Str) => mapInsert m pc.1 pc.2) (initSt fs0).fileChecksumMap }
        = createFileStep cfg noFaults hashF tempNames q (some sha1Algorithm)
            (some (hashF sha1Algorithm q)) { initSt fs0 with oldIndexFilePath := some sha1IndexName, fileChecksumMap := old.foldl (fun m (pc : WinPath × Str) => mapInsert m pc.1 pc.2) (initSt fs0).fileChecksumMap } := by
      unfold processFile
      simp only [hver]
    rw [hcreate] at hpf
    have hloopRest := @processFiles_clean cfg hashF tempNames hc hv hr qrest { { initSt fs0 with oldIndexFilePath := some sha1IndexName, fileChecksumMap := old.foldl (fun m (pc : WinPath × Str) => mapInsert m pc.1 pc.2) (initSt fs0).fileChecksumMap } with fs := fsSet ({ initSt fs0 with oldIndexFilePath := some sha1IndexName, fileChecksumMap := old.foldl (fun m (pc : WinPath × Str) => mapInsert m pc.1 pc.2) (initSt fs0).fileChecksumMap } : St).fs (tempNames 0) [(q, hashF defaultChecksumAlgorithm q)], newIndexWriter := some (tempNames 0), newIndexFilePath := some (tempNames 0) } (tempNames 0) [(q, hashF defaultChecksumAlgorithm q)] rfl rfl
      (fsSet_fsSet ({ initSt fs0 with oldIndexFilePath := some sha1IndexName, fileChecksumMap := old.foldl (fun m (pc : WinPath × Str) => mapInsert m pc.1 pc.2) (initSt fs0).fileChecksumMap } : St).fs (tempNames 0) [(q, hashF defaultChecksumAlgorithm q)] [(q, hashF defaultChecksumAlgorithm q)])
      (fun p hp => hGet p (mem_sortPaths.mp (by rw [hsorted]; exact List.mem_cons_of_mem _ hp)))
    have hloop : processFiles cfg noFaults hashF tempNames (q :: qrest) { initSt fs0 with oldIndexFilePath := some sha1IndexName, fileChecksumMap := old.foldl (fun m (pc : WinPath × Str) => mapInsert m pc.1 pc.2) (initSt fs0).fileChecksumMap }
        = (.ok (), { { { initSt fs0 with oldIndexFilePath := some sha1IndexName, fileChecksumMap := old.foldl (fun m (pc : WinPath × Str) => mapInsert m pc.1 pc.2) (initSt fs0).fileChecksumMap } with fs := fsSet ({ initSt fs0 with oldIndexFilePath := some sha1IndexName, fileChecksumMap := old.foldl (fun m (pc : WinPath × Str) => mapInsert m pc.1 pc.2) (initSt fs0).fileChecksumMap } : St).fs (tempNames 0) [(q, hashF defaultChecksumAlgorithm q)], newIndexWriter := some (tempNames 0), newIndexFilePath := some (tempNames 0) } with fs := fsSet ({ { initSt fs0 with oldIndexFilePath := some sha1IndexName, fileChecksumMap := old.foldl (fun m (pc : WinPath × Str) => mapInsert m pc.1 pc.2) (initSt fs0).fileChecksumMap } with fs := fsSet ({ initSt fs0 with oldIndexFilePath := some sha1IndexName, fileChecksumMap := old.foldl (fun m (pc : WinPath × Str) => mapInsert m pc.1 pc.2) (initSt fs0).fileChecksumMap } : St).fs (tempNames 0) [(q, hashF defaultChecksumAlgorithm q)], newIndexWriter := some (tempNames 0), newIndexFilePath := some (tempNames 0) } : St).fs (tempNames 0) ([(q, hashF defaultChecksumAlgorithm q)] ++ qrest.map (fun p => (p, hashF defaultChecksumAlgorithm p))) }) := by
      show ((match processFile cfg noFaults hashF tempNames q { initSt fs0 with oldIndexFilePath := some sha1IndexName, fileChecksumMap := old.foldl (fun m (pc : WinPath × Str) => mapInsert m pc.1 pc.2) (initSt fs0).fileChecksumMap } with
            | (.error e, st2) => ((.error e : Except PyError Unit), st2)
            | (.ok _, st2) => processFiles cfg noFaults hashF tempNames qrest st2) :
          Except PyError Unit × St) = _
      simp only [hpf]
      exact hloopRest
    have hlook1 : fsLookup ({ { { initSt fs0 with oldIndexFilePath := some sha1IndexName, fileChecksumMap := old.foldl (fun m (pc : WinPath × Str) => mapInsert m pc.1 pc.2) (initSt fs0).fileChecksumMap } with fs := fsSet ({ initSt fs0 with oldIndexFilePath := some sha1IndexName, fileChecksumMap := old.foldl (fun m (pc : WinPath × Str) => mapInsert m pc.1 pc.2) (initSt fs0).fileChecksumMap } : St).fs (tempNames 0) [(q, hashF defaultChecksumAlgorithm q)], newIndexWriter := some (tempNames 0), newIndexFilePath := some (tempNames 0) } with fs := fsSet ({ { initSt fs0 with oldIndexFilePath := some sha1IndexName, fileChecksumMap := old.foldl (fun m (pc : WinPath × Str) => mapInsert m pc.1 pc.2) (initSt fs0).fileChecksumMap } with fs := fsSet ({ initSt fs0 with oldIndexFilePath := some sha1IndexName, fileChecksumMap := old.foldl (fun m (pc : WinPath × Str) => mapInsert m pc.1 pc.2) (initSt fs0).fileChecksumMap } : St).fs (tempNames 0) [(q, hashF defaultChecksumAlgorithm q)], newIndexWriter := some (tempNames 0), newIndexFilePath := some (tempNames 0) } : St).fs (tempNames 0) ([(q, hashF defaultChecksumAlgorithm q)] ++ qrest.map (fun p => (p, hashF defaultChecksumAlgorithm p))) } : St).fs sha1IndexName = some old := by
      show fsLookup (fsSet (fsSet fs0 (tempNames 0) [(q, hashF defaultChecksumAlgorithm q)]) (tempNames 0)
        ([(q, hashF defaultChecksumAlgorithm q)] ++ qrest.map (fun p => (p, hashF defaultChecksumAlgorithm p)))) sha1IndexName = some old
      rw [fsSet_fsSet, fsLookup_fsSet_ne _ _ hne1t, hsha1]
    have hlooktmp : fsLookup (fsRemove ({ { { initSt fs0 with oldIndexFilePath := some sha1IndexName, fileChecksumMap := old.foldl (fun m (pc : WinPath × Str) => mapInsert m pc.1 pc.2) (initSt fs0).fileChecksumMap } with fs := fsSet ({ initSt fs0 with oldIndexFilePath := some sha1IndexName, fileChecksumMap := old.foldl (fun m (pc : WinPath × Str) => mapInsert m pc.1 pc.2) (initSt fs0).fileChecksumMap } : St).fs (tempNames 0) [(q, hashF defaultChecksumAlgorithm q)], newIndexWriter := some (tempNames 0), newIndexFilePath := some (tempNames 0) } with fs := fsSet ({ { initSt fs0 with oldIndexFilePath := some sha1IndexName, fileChecksumMap := old.foldl (fun m (pc : WinPath × Str) => mapInsert m pc.1 pc.2) (initSt fs0).fileChecksumMap } with fs := fsSet ({ initSt fs0 with oldIndexFilePath := some sha1IndexName, fileChecksumMap := old.foldl (fun m (pc : WinPath × Str) => mapInsert m pc.1 pc.2) (initSt fs0).fileChecksumMap } : St).fs (tempNames 0) [(q, hashF defaultChecksumAlgorithm q)], newIndexWriter := some (tempNames 0), newIndexFilePath := some (tempNames 0) } : St).fs (tempNames 0) ([(q, hashF defaultChecksumAlgorithm q)] ++ qrest.map (fun p => (p, hashF defaultChecksumAlgorithm p))) } : St).fs sha1IndexName) (tempNames 0)
        = some ([(q, hashF defaultChecksumAlgorithm q)] ++ qrest.map (fun p => (p, hashF defaultChecksumAlgorithm p))) := by
      show fsLookup (fsRemove (fsSet (fsSet fs0 (tempNames 0) [(q, hashF defaultChecksumAlgorithm q)]) (tempNames 0)
        ([(q, hashF defaultChecksumAlgorithm q)] ++ qrest.map (fun p => (p, hashF defaultChecksumAlgorithm p)))) sha1IndexName) (tempNames 0) = _
      rw [fsSet_fsSet, fsLookup_fsRemove_ne _ (Ne.symm hne1t), fsLookup_fsSet_self]
    have hlooksha2 : fsLookup (fsRemove ({ { { initSt fs0 with oldIndexFilePath := some sha1IndexName, fileChecksumMap := old.foldl (fun m (pc : WinPath × Str) => mapInsert m pc.1 pc.2) (initSt fs0).fileChecksumMap } with fs := fsSet ({ initSt fs0 with oldIndexFilePath := some sha1IndexName, fileChecksumMap := old.foldl (fun m (pc : WinPath × Str) => mapInsert m pc.1 pc.2) (initSt fs0).fileChecksumMap } : St).fs (tempNames 0) [(q, hashF defaultChecksumAlgorithm q)], newIndexWriter := some (tempNames 0), newIndexFilePath := some (tempNames 0) } with fs := fsSet ({ { initSt fs0 with oldIndexFilePath := some sha1IndexName, fileChecksumMap := old.foldl (fun m (pc : WinPath × Str) => mapInsert m pc.1 pc.2) (initSt fs0).fileChecksumMap } with fs := fsSet ({ initSt fs0 with oldIndexFilePath := some sha1IndexName, fileChecksumMap := old.foldl (fun m (pc : WinPath × Str) => mapInsert m pc.1 pc.2) (initSt fs0).fileChecksumMap } : St).fs (tempNames 0) [(q, hashF defaultChecksumAlgorithm q)], newIndexWriter := some (tempNames 0), newIndexFilePath := some (tempNames 0) } : St).fs (tempNames 0) ([(q, hashF defaultChecksumAlgorithm q)] ++ qrest.map (fun p => (p, hashF defaultChecksumAlgorithm p))) } : St).fs sha1IndexName) sha2IndexName = none := by
      show fsLookup (fsRemove (fsSet (fsSet fs0 (tempNames 0) [(q, hashF defaultChecksumAlgorithm q)]) (tempNames 0)
        ([(q, hashF defaultChecksumAlgorithm q)] ++ qrest.map (fun p => (p, hashF defaultChecksumAlgorithm p)))) sha1IndexName) sha2IndexName = none
      rw [fsSet_fsSet, fsLookup_fsRemove_ne _ hne12, fsLookup_fsSet_ne _ _ hne2t, hsha2]
    have hcommit := @commitNewIndex_clean cfg { { { initSt fs0 with oldIndexFilePath := some sha1IndexName, fileChecksumMap := old.foldl (fun m (pc : WinPath × Str) => mapInsert m pc.1 pc.2) (initSt fs0).fileChecksumMap } with fs := fsSet ({ initSt fs0 with oldIndexFilePath := some sha1IndexName, fileChecksumMap := old.foldl (fun m (pc : WinPath × Str) => mapInsert m pc.1 pc.2) (initSt fs0).fileChecksumMap } : St).fs (tempNames 0) [(q, hashF defaultChecksumAlgorithm q)], newIndexWriter := some (tempNames 0), newIndexFilePath := some (tempNames 0) } with fs := fsSet ({ { initSt fs0 with oldIndexFilePath := some sha1IndexName, fileChecksumMap := old.foldl (fun m (pc : WinPath × Str) => mapInsert m pc.1 pc.2) (initSt fs0).fileChecksumMap } with fs := fsSet ({ initSt fs0 with oldIndexFilePath := some sha1IndexName, fileChecksumMap := old.foldl (fun m (pc : WinPath × Str) => mapInsert m pc.1 pc.2) (initSt fs0).fileChecksumMap } : St).fs (tempNames 0) [(q, hashF defaultChecksumAlgorithm q)], newIndexWriter := some (tempNames 0), newIndexFilePath := some (tempNames 0) } : St).fs (tempNames 0) ([(q, hashF defaultChecksumAlgorithm q)] ++ qrest.map (fun p => (p, hashF defaultChecksumAlgorithm p))) } (tempNames 0)
      ([(q, hashF defaultChecksumAlgorithm q)] ++ qrest.map (fun p => (p, hashF defaultChecksumAlgorithm p))) old hgip rfl rfl rfl rfl rfl hlook1 hlooktmp hlooksha2
    have hproc : IndexBuilder.process cfg noFaults hashF tempNames fileListRaw (initSt fs0)
        = commitNewIndex cfg noFaults { { { initSt fs0 with oldIndexFilePath := some sha1IndexName, fileChecksumMap := old.foldl (fun m (pc : WinPath × Str) => mapInsert m pc.1 pc.2) (initSt fs0).fileChecksumMap } with fs := fsSet ({ initSt fs0 with oldIndexFilePath := some sha1IndexName, fileChecksumMap := old.foldl (fun m (pc : WinPath × Str) => mapInsert m pc.1 pc.2) (initSt fs0).fileChecksumMap } : St).fs (tempNames 0) [(q, hashF defaultChecksumAlgorithm q)], newIndexWriter := some (tempNames 0), newIndexFilePath := some (tempNames 0) } with fs := fsSet ({ { initSt fs0 with oldIndexFilePath := some sha1IndexName, fileChecksumMap := old.foldl (fun m (pc : WinPath × Str) => mapInsert m pc.1 pc.2) (initSt fs0).fileChecksumMap } with fs := fsSet ({ initSt fs0 with oldIndexFilePath := some sha1IndexName, fileChecksumMap := old.foldl (fun m (pc : WinPath × Str) => mapInsert m pc.1 pc.2) (initSt fs0).fileChecksumMap } : St).fs (tempNames 0) [(q, hashF defaultChecksumAlgorithm q)], newIndexWriter := some (tempNames 0), newIndexFilePath := some (tempNames 0) } : St).fs (tempNames 0) ([(q, hashF defaultChecksumAlgorithm q)] ++ qrest.map (fun p => (p, hashF defaultChecksumAlgorithm p))) } := by
      unfold IndexBuilder.process
      simp only [hv, if_true, hread]
      simp only [hcm]
      rw [hsorted]
      simp only [hloop]
      simp only [hc, Bool.not_true, Bool.false_eq_true, if_false]
    rw [hcommit] at hproc
    have hflag : (cfg.create || cfg.verify) = true := by
      rw [hc]
      simp
    have hrun := run_of_process_ok hflag hproc rfl rfl rfl rfl rfl
    refine ⟨_, hrun, ?_, rfl, rfl, rfl, ?_⟩
    · simp only [fsLookup_fsSet_self]
      simp only [List.map_cons, List.singleton_append]
    · intro hhex e he
      obtain ⟨p, hp, rfl⟩ := List.mem_map.mp he
      refine ⟨hhex p, ?_⟩
      show detectChecksumAlgorithm (hashF defaultChecksumAlgorithm p) = some defaultChecksumAlgorithm
      unfold detectChecksumAlgorithm
      rw [(hhex p).1]
      simp

/-- C2 witness: a concrete legacy rebuild — one file `f`, a `Checksums.sha1`
manifest holding its 40-character digest, a hash oracle on which sha1
recomputation matches; the run promotes a `Checksums.sha2` manifest with
the 64-character digest. -/
theorem C2_legacy_rebuild_witness :
    ∃ st' : St,
      IndexBuilder.run (IndexBuilder.mkCfg true true none false false false) noFaults
          (fun (alg : Str) (_ : WinPath) => if alg = sha1Algorithm then List.replicate 40 'a' else List.replicate 64 'b')
          (fun _ => ['t']) [[['f']]]
          (initSt [(sha1IndexName, [([['f']], List.replicate 40 'a')])])
        = (.ok true, st')
      ∧ fsLookup st'.fs sha2IndexName
          = some ((sortPaths [[['f']]]).map (fun p => (p,
              (fun (alg : Str) (_ : WinPath) => if alg = sha1Algorithm then List.replicate 40 'a' else List.replicate 64 'b') defaultChecksumAlgorithm p)))
      ∧ st'.missingCount = 0 ∧ st'.damagedCount = 0 ∧ st'.newCount = 0
      ∧ ((∀ p, hex64 ((fun (alg : Str) (_ : WinPath) => if alg = sha1Algorithm then List.replicate 40 'a' else List.replicate 64 'b') defaultChecksumAlgorithm p)) →
          ∀ e ∈ (sortPaths [[['f']]]).map (fun p => (p,
              (fun (alg : Str) (_ : WinPath) => if alg = sha1Algorithm then List.replicate 40 'a' else List.replicate 64 'b') defaultChecksumAlgorithm p)),
            hex64 e.2 ∧ detectChecksumAlgorithm e.2 = some defaultChecksumAlgorithm) :=
  C2_legacy_rebuild (IndexBuilder.mkCfg true true none false false false)
    (fun (alg : Str) (_ : WinPath) => if alg = sha1Algorithm then List.replicate 40 'a' else List.replicate 64 'b')
    (fun _ => ['t']) [[['f']]]
    [(sha1IndexName, [([['f']], List.replicate 40 'a')])]
    [([['f']], List.replicate 40 'a')]
    rfl rfl rfl rfl (by decide) (by decide) (by decide) (by decide) (by decide) (by decide)
    (by decide) (by decide)

/-! ### Pre-commit frame invariant and cleanup restoration (C1) -/

theorem calcChecksum_snd (faults : Faults) (hashF : Str → WinPath → Str) (alg : Str)
    (p : WinPath) (st : St) : (calcChecksum faults hashF alg p st).2 = st := by
  unfold calcChecksum
  split <;> rfl

theorem pickTempName_ok_none {fs : FS} {tempNames : Nat → Str} :
    ∀ {fuel k : Nat} {name : Str}, pickTempName fs tempNames fuel k = .ok name →
      fsLookup fs name = none := by
  intro fuel
  induction fuel with
  | zero =>
    intro k name h
    cases h
  | succ n ih =>
    intro k name h
    unfold pickTempName at h
    split at h
    · rename_i heq
      cases h
      exact heq
    · exact ih h

/-- The shape of the file system and writer fields everywhere before the
commit: either no temporary manifest exists and the folder is untouched, or
exactly one fresh temporary manifest has been created (both fields pointing
at it). -/
def writerInv (fs0 : FS) (st : St) : Prop :=
  (st.newIndexFilePath = none ∧ st.newIndexWriter = none ∧ st.fs = fs0) ∨
  (∃ tmp content, st.newIndexFilePath = some tmp ∧ st.newIndexWriter = some tmp ∧
    st.fs = fsSet fs0 tmp content ∧ fsLookup fs0 tmp = none)

theorem writerInv_congr {fs0 : FS} {st st2 : St}
    (hfs : st2.fs = st.fs) (hw : st2.newIndexWriter = st.newIndexWriter)
    (hn : st2.newIndexFilePath = st.newIndexFilePath)
    (hinv : writerInv fs0 st) : writerInv fs0 st2 := by
  unfold writerInv at hinv ⊢
  rw [hfs, hw, hn]
  exact hinv

theorem verifyFileStep_frame (cfg : Cfg) (faults : Faults) (hashF : Str → WinPath → Str)
    (fp : WinPath) (st : St) :
    (verifyFileStep cfg faults hashF fp st).2.fs = st.fs ∧
    (verifyFileStep cfg faults hashF fp st).2.newIndexWriter = st.newIndexWriter ∧
    (verifyFileStep cfg faults hashF fp st).2.newIndexFilePath = st.newIndexFilePath := by
  unfold verifyFileStep raiseValidationError
  split
  · split
    · exact ⟨rfl, rfl, rfl⟩
    · split
      · exact ⟨rfl, rfl, rfl⟩
      · split
        · rename_i e2 st2 heq
          split at heq
          · rename_i alg halg
            split at heq
            · rename_i hsc
              cases heq
              have h := calcChecksum_snd faults hashF alg fp st
              rw [hsc] at h
              have h2 : st2 = st := h
              subst h2
              exact ⟨rfl, rfl, rfl⟩
            · rename_i hsc
              exact absurd (congrArg Prod.fst heq) (by simp)
          · exact absurd (congrArg Prod.fst heq) (by simp)
        · rename_i alg cs st2 heq
          have h2 : st2 = st := by
            split at heq
            · rename_i alg2 halg2
              split at heq
              · rename_i hsc
                exact absurd (congrArg Prod.fst heq) (by simp)
              · rename_i hsc
                cases heq
                have h := calcChecksum_snd faults hashF alg2 fp st
                rw [hsc] at h
                exact h
            · cases heq
              rfl
          subst h2
          (repeat' split) <;> exact ⟨rfl, rfl, rfl⟩
  · exact ⟨rfl, rfl, rfl⟩

theorem openNewIndex_inv {cfg : Cfg} {faults : Faults} {tempNames : Nat → Str}
    {fs0 : FS} {st : St} (hinv : writerInv fs0 st) :
    writerInv fs0 (openNewIndex cfg faults tempNames st).2 := by
  unfold openNewIndex
  split
  · exact hinv
  · rename_i hnone
    split
    · exact hinv
    · rename_i newName hpick
      split
      · exact hinv
      · right
        rcases hinv with ⟨h1, h2, h3⟩ | ⟨tmp, content, h1, h2, h3, h4⟩
        · refine ⟨newName, [], rfl, rfl, ?_, ?_⟩
          · show fsSet st.fs newName [] = fsSet fs0 newName []
            rw [h3]
          · have h := pickTempName_ok_none hpick
            rw [h3] at h
            exact h
        · rw [hnone] at h1
          cases h1

theorem writerWrite_inv {faults : Faults} {fp : WinPath} {checksum : Str}
    {fs0 : FS} {st : St} (hinv : writerInv fs0 st) :
    writerInv fs0 (writerWrite faults fp checksum st).2 := by
  unfold writerWrite
  split
  · exact hinv
  · rename_i w hw
    split
    · exact hinv
    · split
      · exact hinv
      · rename_i lines hlook
        rcases hinv with ⟨h1, h2, h3⟩ | ⟨tmp, content, h1, h2, h3, h4⟩
        · rw [hw] at h2
          cases h2
        · have hwt : tmp = w := by
            rw [hw] at h2
            cases h2
            rfl
          subst hwt
          right
          refine ⟨tmp, lines ++ [(fp, checksum)], h1, h2, ?_, h4⟩
          show fsSet st.fs tmp (lines ++ [(fp, checksum)]) = fsSet fs0 tmp (lines ++ [(fp, checksum)])
          rw [h3, fsSet_fsSet]

theorem createFileStep_inv {cfg : Cfg} {faults : Faults} {hashF : Str → WinPath → Str}
    {tempNames : Nat → Str} {fp : WinPath} {algorithm checksum : Option Str}
    {fs0 : FS} {st : St} (hinv : writerInv fs0 st) :
    writerInv fs0 (createFileStep cfg faults hashF tempNames fp algorithm checksum st).2 := by
  unfold createFileStep
  split
  · split
    · rename_i e3 st3 ho
      have h := @openNewIndex_inv cfg faults tempNames fs0 st hinv
      rw [ho] at h
      exact h
    · rename_i a st3 ho
      have hinv3 : writerInv fs0 st3 := by
        have h := @openNewIndex_inv cfg faults tempNames fs0 st hinv
        rw [ho] at h
        exact h
      split
      · rename_i e4 st4 hcalc
        have h4 : st4 = st3 := by
          split at hcalc
          · have h := calcChecksum_snd faults hashF defaultChecksumAlgorithm fp st3
            rw [hcalc] at h
            exact h
          · cases hcalc
        subst h4
        exact hinv3
      · rename_i c st4 hcalc
        have h4 : st4 = st3 := by
          split at hcalc
          · have h := calcChecksum_snd faults hashF defaultChecksumAlgorithm fp st3
            rw [hcalc] at h
            exact h
          · cases hcalc
            rfl
        subst h4
        exact writerWrite_inv hinv3
  · exact hinv

theorem processFile_inv {cfg : Cfg} {faults : Faults} {hashF : Str → WinPath → Str}
    {tempNames : Nat → Str} {fp : WinPath} {fs0 : FS} {st : St} (hinv : writerInv fs0 st) :
    writerInv fs0 (processFile cfg faults hashF tempNames fp st).2 := by
  unfold processFile
  have hf := verifyFileStep_frame cfg faults hashF fp st
  split
  · rename_i e2 st2 hv
    rw [hv] at hf
    exact writerInv_congr hf.1 hf.2.1 hf.2.2 hinv
  · rename_i a c st2 hv
    rw [hv] at hf
    exact createFileStep_inv (writerInv_congr hf.1 hf.2.1 hf.2.2 hinv)

theorem processFiles_inv {cfg : Cfg} {faults : Faults} {hashF : Str → WinPath → Str}
    {tempNames : Nat → Str} {fs0 : FS} :
    ∀ (l : List WinPath) (st : St), writerInv fs0 st →
      writerInv fs0 (processFiles cfg faults hashF tempNames l st).2 := by
  intro l
  induction l with
  | nil =>
    intro st hinv
    exact hinv
  | cons fp rest ih =>
    intro st hinv
    show writerInv fs0 (match processFile cfg faults hashF tempNames fp st with
      | (.error e, st2) => ((.error e : Except PyError Unit), st2)
      | (.ok _, st2) => processFiles cfg faults hashF tempNames rest st2).2
    have hp := @processFile_inv cfg faults hashF tempNames fp fs0 st hinv
    split
    · rename_i e2 st2 hpf
      rw [hpf] at hp
      exact hp
    · rename_i a st2 hpf
      rw [hpf] at hp
      exact ih st2 hp

theorem openOldIndex_frame (cfg : Cfg) (st : St) :
    (openOldIndex cfg st).2.fs = st.fs ∧
    (openOldIndex cfg st).2.newIndexWriter = st.newIndexWriter ∧
    (openOldIndex cfg st).2.newIndexFilePath = st.newIndexFilePath := by
  unfold openOldIndex
  (repeat' split) <;> exact ⟨rfl, rfl, rfl⟩

theorem readOldIndex_frame (cfg : Cfg) (st : St) :
    (readOldIndex cfg st).2.fs = st.fs ∧
    (readOldIndex cfg st).2.newIndexWriter = st.newIndexWriter ∧
    (readOldIndex cfg st).2.newIndexFilePath = st.newIndexFilePath := by
  unfold readOldIndex
  have hf := openOldIndex_frame cfg st
  split
  · rename_i e2 st2 ho
    rw [ho] at hf
    exact hf
  · rename_i st2 ho
    rw [ho] at hf
    exact hf
  · rename_i fp content st2 ho
    rw [ho] at hf
    exact hf

theorem checkMissing_frame (cfg : Cfg) (fileList : List WinPath) (st : St) :
    (checkMissing cfg fileList st).2.fs = st.fs ∧
    (checkMissing cfg fileList st).2.newIndexWriter = st.newIndexWriter ∧
    (checkMissing cfg fileList st).2.newIndexFilePath = st.newIndexFilePath := by
  unfold checkMissing raiseValidationError
  split
  · exact ⟨rfl, rfl, rfl⟩
  · split
    · rename_i e2 st2 hm
      rw [missingLoop_eq] at hm
      cases hm
    · rename_i a st2 hm
      rw [missingLoop_eq] at hm
      cases hm
      split
      · exact ⟨rfl, rfl, rfl⟩
      · exact ⟨rfl, rfl, rfl⟩

theorem closeNewIndexWriter_ghost (faults : Faults) (nothrow : Bool) (st : St) :
    (closeNewIndexWriter faults nothrow st).2.ghostCommit = st.ghostCommit := by
  unfold closeNewIndexWriter
  (repeat' split) <;> rfl

theorem unlinkFile_ghost (faults : Faults) (name : Str) (st : St) :
    (unlinkFile faults name st).2.ghostCommit = st.ghostCommit := by
  unfold unlinkFile
  (repeat' split) <;> rfl

theorem renameFile_ghost (faults : Faults) (src dst : Str) (st : St) :
    (renameFile faults src dst st).2.ghostCommit = st.ghostCommit := by
  unfold renameFile
  (repeat' split) <;> rfl

theorem commitLogNoFiles_ghost (st : St) :
    (commitLogNoFiles st).ghostCommit = st.ghostCommit := by
  unfold commitLogNoFiles
  split <;> rfl

theorem removeOldIndex_ghost (faults : Faults) (makeBackup : Bool) (st : St) :
    (removeOldIndex faults makeBackup st).2.ghostCommit = st.ghostCommit := by
  unfold removeOldIndex
  split
  · rfl
  · rename_i old holdp
    split
    · exact unlinkFile_ghost faults old _
    · rcases hu : unlinkFile faults (backupName old) { st with oldIndexFilePath := none } with ⟨r3, st3⟩
      have hg3 : st3.ghostCommit = st.ghostCommit := by
        have h := unlinkFile_ghost faults (backupName old) { st with oldIndexFilePath := none }
        rw [hu] at h
        exact h
      cases r3 with
      | error e3 =>
        cases e3 <;>
          first
          | exact hg3
          | (show (renameFile faults old (backupName old) st3).2.ghostCommit = st.ghostCommit
             rw [renameFile_ghost]
             exact hg3)
      | ok a =>
        show (renameFile faults old (backupName old) st3).2.ghostCommit = st.ghostCommit
        rw [renameFile_ghost]
        exact hg3

theorem renameNewIndex_ghost (cfg : Cfg) (faults : Faults) (st : St) :
    (renameNewIndex cfg faults st).2.ghostCommit = st.ghostCommit := by
  unfold renameNewIndex
  split
  · rfl
  · rename_i nf hn
    rcases hc : closeNewIndexWriter faults false st with ⟨r2, st2⟩
    have hg2 : st2.ghostCommit = st.ghostCommit := by
      have h := closeNewIndexWriter_ghost faults false st
      rw [hc] at h
      exact h
    cases r2 with
    | error e2 => exact hg2
    | ok a =>
      show (renameFile faults nf (getIndexFilePath cfg) { st2 with newIndexFilePath := none }).2.ghostCommit = st.ghostCommit
      rw [renameFile_ghost]
      exact hg2

theorem commitNewIndex_ghost_err {cfg : Cfg} {faults : Faults} {st st1 : St} {e : PyError}
    (h : commitNewIndex cfg faults st = (.error e, st1)) :
    st1.ghostCommit = true := by
  unfold commitNewIndex at h
  rcases hc : closeNewIndexWriter faults false { st with ghostCommit := true } with ⟨r2, st2⟩
  have hg2 : st2.ghostCommit = true := by
    have hg := closeNewIndexWriter_ghost faults false { st with ghostCommit := true }
    rw [hc] at hg
    exact hg
  rw [hc] at h
  cases r2 with
  | error e2 =>
    cases h
    exact hg2
  | ok a =>
    split at h
    · rename_i e2 st2b heq
      exact absurd (congrArg Prod.fst heq) (by simp)
    · rename_i a2 st2b heq
      have hst2b : st2b = st2 := (congrArg Prod.snd heq).symm
      subst hst2b
      split at h
      · exact absurd (congrArg Prod.fst h) (by simp)
      · split at h
        · rename_i e3 st3 hr
          cases h
          have hg := removeOldIndex_ghost faults (!commitSuccess (commitLogNoFiles st2b)) (commitLogNoFiles st2b)
          rw [hr] at hg
          rw [hg, commitLogNoFiles_ghost]
          exact hg2
        · rename_i a3 st3 hr
          have hg3 : st3.ghostCommit = true := by
            have hg := removeOldIndex_ghost faults (!commitSuccess (commitLogNoFiles st2b)) (commitLogNoFiles st2b)
            rw [hr] at hg
            rw [hg, commitLogNoFiles_ghost]
            exact hg2
          split at h
          · rename_i e4 st4 hren
            cases h
            have hg := renameNewIndex_ghost cfg faults st3
            rw [hren] at hg
            rw [hg]
            exact hg3
          · exact absurd (congrArg Prod.fst h) (by simp)

theorem process_err_inv {cfg : Cfg} {faults : Faults} {hashF : Str → WinPath → Str}
    {tempNames : Nat → Str} {fileListRaw : List WinPath} {fs0 : FS} {e : PyError} {st1 : St}
    (hp : IndexBuilder.process cfg faults hashF tempNames fileListRaw (initSt fs0)
      = (.error e, st1))
    (hg : st1.ghostCommit = false) :
    writerInv fs0 st1 := by
  have hinv0 : writerInv fs0 (initSt fs0) := Or.inl ⟨rfl, rfl, rfl⟩
  unfold IndexBuilder.process at hp
  split at hp
  · rename_i e1 st1a hsc
    cases hp
    split at hsc
    · have hf := readOldIndex_frame cfg (initSt fs0)
      rw [hsc] at hf
      exact writerInv_congr hf.1 hf.2.1 hf.2.2 hinv0
    · exact absurd (congrArg Prod.fst hsc) (by simp)
  · rename_i a1 st1a hsc
    have hinv1 : writerInv fs0 st1a := by
      split at hsc
      · have hf := readOldIndex_frame cfg (initSt fs0)
        rw [hsc] at hf
        exact writerInv_congr hf.1 hf.2.1 hf.2.2 hinv0
      · cases hsc
        exact hinv0
    split at hp
    · rename_i e2 st2a hsc2
      cases hp
      split at hsc2
      · have hf := checkMissing_frame cfg (sortPaths fileListRaw) st1a
        rw [hsc2] at hf
        exact writerInv_congr hf.1 hf.2.1 hf.2.2 hinv1
      · exact absurd (congrArg Prod.fst hsc2) (by simp)
    · rename_i a2 st2a hsc2
      have hinv2 : writerInv fs0 st2a := by
        split at hsc2
        · have hf := checkMissing_frame cfg (sortPaths fileListRaw) st1a
          rw [hsc2] at hf
          exact writerInv_congr hf.1 hf.2.1 hf.2.2 hinv1
        · cases hsc2
          exact hinv1
      split at hp
      · rename_i e3 st3a hsc3
        cases hp
        have hf := @processFiles_inv cfg faults hashF tempNames fs0 (sortPaths fileListRaw) st2a hinv2
        rw [hsc3] at hf
        exact hf
      · rename_i a3 st3a hsc3
        have hinv3 : writerInv fs0 st3a := by
          have hf := @processFiles_inv cfg faults hashF tempNames fs0 (sortPaths fileListRaw) st2a hinv2
          rw [hsc3] at hf
          exact hf
        split at hp
        · exact absurd (congrArg Prod.fst hp) (by simp)
        · have hgc := commitNewIndex_ghost_err hp
          rw [hg] at hgc
          cases hgc

theorem cleanup_inv {faults : Faults} {fs0 : FS} {st : St}
    (hcf : faults.closeFails = false)
    (huf : ∀ n, faults.unlinkFails n = false)
    (hinv : writerInv fs0 st) :
    ∃ st2, cleanup faults st = (.ok (), st2) ∧ st2.fs = fs0 ∧
      st2.newIndexWriter = none ∧ st2.newIndexFilePath = none := by
  rcases hinv with ⟨h1, h2, h3⟩ | ⟨tmp, content, h1, h2, h3, h4⟩
  · exact ⟨st, cleanup_noop h2 h1, h3, h2, h1⟩
  · refine ⟨{ st with newIndexWriter := none, newIndexFilePath := none, fs := fsRemove st.fs tmp }, ?_, ?_, rfl, rfl⟩
    · unfold cleanup
      simp only [closeNewIndexWriter_some hcf h2]
      simp only [h1]
      unfold unlinkFile
      rw [huf tmp]
      simp only [Bool.false_eq_true, if_false]
      have hlt : fsLookup st.fs tmp = some content := by
        rw [h3]
        exact fsLookup_fsSet_self _ _ _
      simp only [hlt]
    · show fsRemove st.fs tmp = fs0
      rw [h3]
      exact fsRemove_fsSet_fresh h4

/-- C1 (amended): (i) the cleanup step never raises — whatever state a run
leaves behind, `__cleanup` returns normally; (ii) an `OSError` while
deleting the never-promoted temporary manifest during cleanup is logged as
a remove-error line and swallowed; (iii) for every run whose `__process`
raises BEFORE the commit phase is entered (I/O error, validation failure or
any other exception), the error propagates out of `run`, cleanup still
executes, and it closes the writer and deletes the temporary manifest,
leaving the folder — in particular any previously existing manifest file —
exactly as it was.  The original claim's unrestricted scope is refuted
separately: an error during the commit phase itself (after the old index
was removed) loses the previously existing manifest. -/
theorem C1_error_cleanup :
    (∀ (faults : Faults) (st : St), (cleanup faults st).1 = .ok ()) ∧
    (∀ (faults : Faults) (st : St) (nf : Str),
      faults.closeFails = false → faults.unlinkFails nf = true →
      st.newIndexWriter = none → st.newIndexFilePath = some nf →
      cleanup faults st = (.ok (), { st with newIndexFilePath := none, log := st.log ++ [LogEntry.removeError nf] })) ∧
    (∀ (cfg : Cfg) (faults : Faults) (hashF : Str → WinPath → Str) (tempNames : Nat → Str)
       (fileListRaw : List WinPath) (fs0 : FS) (e : PyError) (st1 : St),
      (cfg.create || cfg.verify) = true →
      faults.closeFails = false →
      (∀ n, faults.unlinkFails n = false) →
      IndexBuilder.process cfg faults hashF tempNames fileListRaw (initSt fs0) = (.error e, st1) →
      st1.ghostCommit = false →
      ∃ st2 : St,
        IndexBuilder.run cfg faults hashF tempNames fileListRaw (initSt fs0) = (.error e, st2)
        ∧ st2.fs = fs0 ∧ st2.newIndexWriter = none ∧ st2.newIndexFilePath = none) := by
  refine ⟨cleanup_ok, ?_, ?_⟩
  · intro faults st nf hcf huf hw hn
    unfold cleanup
    rw [closeNewIndexWriter_none hw]
    simp only [hn]
    unfold unlinkFile
    rw [huf]
    simp only [if_true]
    rfl
  · intro cfg faults hashF tempNames fileListRaw fs0 e st1 hflag hcf huf hproc hghost
    have hinv1 := process_err_inv hproc hghost
    obtain ⟨st2, hcl, hfs, hw2, hn2⟩ := cleanup_inv hcf huf hinv1
    refine ⟨st2, ?_, hfs, hw2, hn2⟩
    unfold IndexBuilder.run
    simp only [hflag, Bool.not_true, Bool.false_eq_true, if_false, hproc, hcl]

/-- C1 witness: (i) cleanup of a fresh state returns normally; (ii) with an
unlink fault on the pending temporary name, cleanup still returns `ok` and
logs the remove error; (iii) a reject-policy verify run over a manifest
whose file is gone propagates its validation error while leaving the folder
untouched. -/
theorem C1_error_cleanup_witness :
    (cleanup noFaults (initSt [])).1 = .ok ()
    ∧ cleanup { noFaults with unlinkFails := fun s => s == ['t'] } { initSt [] with newIndexFilePath := some ['t'] }
        = (.ok (), { { initSt [] with newIndexFilePath := some ['t'] } with newIndexFilePath := none, log := ({ initSt [] with newIndexFilePath := some ['t'] } : St).log ++ [LogEntry.removeError ['t']] })
    ∧ (∃ st2 : St,
        IndexBuilder.run (IndexBuilder.mkCfg false true none true false false) noFaults
            (fun _ _ => []) (fun _ => []) []
            (initSt [(sha2IndexName, [([['a']], List.replicate 64 'f')])])
          = (.error .validationError, st2)
        ∧ st2.fs = [(sha2IndexName, [([['a']], List.replicate 64 'f')])]
        ∧ st2.newIndexWriter = none ∧ st2.newIndexFilePath = none) :=
  ⟨C1_error_cleanup.1 noFaults (initSt []),
   C1_error_cleanup.2.1 { noFaults with unlinkFails := fun s => s == ['t'] } { initSt [] with newIndexFilePath := some ['t'] } ['t'] rfl (by decide) rfl rfl,
   C1_error_cleanup.2.2 (IndexBuilder.mkCfg false true none true false false) noFaults
     (fun _ _ => []) (fun _ => []) [] [(sha2IndexName, [([['a']], List.replicate 64 'f')])]
     .validationError
     (IndexBuilder.process (IndexBuilder.mkCfg false true none true false false) noFaults
       (fun _ _ => []) (fun _ => []) [] (initSt [(sha2IndexName, [([['a']], List.replicate 64 'f')])])).2
     rfl rfl (fun _ => rfl) (by decide) (by decide)⟩

/-- C1 counterexample: a rename fault at the very last commit step.  The
old `Checksums.sha2` manifest was already unlinked, `__renameNewIndex` had
already cleared the temporary-manifest field, so the failing run ends with
an `OSError` while the previously existing manifest is gone from the
folder and the unpromoted temporary manifest is left behind — refuting the
claim that an erroring run leaves the previous manifest unchanged and
always deletes the temporary file. -/
theorem C1_commit_error_counterexample :
    (IndexBuilder.run (IndexBuilder.mkCfg true true none false false false)
        { noFaults with renameFails := fun s => s == ['t'] }
        (fun _ _ => List.replicate 64 'b') (fun _ => ['t']) [[['a']]]
        (initSt [(sha2IndexName, [([['a']], List.replicate 64 'b')])])).1
      = .error .osError
    ∧ fsLookup [(sha2IndexName, [([['a']], List.replicate 64 'b')])] sha2IndexName
      = some [([['a']], List.replicate 64 'b')]
    ∧ fsLookup (IndexBuilder.run (IndexBuilder.mkCfg true true none false false false)
        { noFaults with renameFails := fun s => s == ['t'] }
        (fun _ _ => List.replicate 64 'b') (fun _ => ['t']) [[['a']]]
        (initSt [(sha2IndexName, [([['a']], List.replicate 64 'b')])])).2.fs sha2IndexName
      = none
    ∧ fsLookup (IndexBuilder.run (IndexBuilder.mkCfg true true none false false false)
        { noFaults with renameFails := fun s => s == ['t'] }
        (fun _ _ => List.replicate 64 'b') (fun _ => ['t']) [[['a']]]
        (initSt [(sha2IndexName, [([['a']], List.replicate 64 'b')])])).2.fs ['t']
      = some [([['a']], List.replicate 64 'b')] :=
  ⟨by decide, by decide, by decide, by decide⟩
